import Mathlib

/-!
Shallow embedding of the rust-matching-engine repository: the per-symbol
order-book matching core (src/matcher/src/orderbook.rs, src/matcher/src/types.rs)
and the fund-ledger / gateway layer (src/http-server/src/models/database.rs,
src/http-server/src/routes/orders.rs).

Modelling conventions:
  * u64 values become Nat (no arithmetic in the engine can overflow or
    underflow in the reachable states exercised here; Rust would panic on
    underflow, and every subtraction in the source is guarded).
  * Rust's BTreeMap<u64, PriceLevel> is modelled as an association list with
    unique keys; `first_key_value`/`last_key_value`/`keys().min()/max()` become
    the minimum / maximum key of the list, which is exactly what they denote
    on the sorted Rust map.
  * VecDeque<Order> becomes List Order with the head as the deque front.
  * The `unreachable!` panics in add_order / match_order are modelled by
    returning `none` from the operation (an `Option` result); `some` results
    are exactly the non-panicking executions of the Rust code.
  * Wall-clock timestamps (get_current_timestamp) are passed in as an explicit
    `ts` argument.
  * The f64 ledger arithmetic of database.rs is modelled over ℚ (exact
    rationals standing in for the floating-point expressions, term for term).
-/

namespace Matcher

/-- OrderSide from src/matcher/src/types.rs. -/
inductive OrderSide where
  | Bid
  | Ask
deriving DecidableEq, Repr

/-- TimeInForce from src/matcher/src/types.rs. -/
inductive TimeInForce where
  | GTC
  | FOK
  | IOC
deriving DecidableEq, Repr

/-- Order record from src/matcher/src/types.rs (with the user_id field used
by orderbook.rs). -/
structure Order where
  id : Nat
  user_id : Nat
  price_tick : Nat
  quantity : Nat
  quantity_filled : Nat
  side : OrderSide
  time_in_force : TimeInForce
  timestamp : Nat
  is_cancelled : Bool
deriving DecidableEq, Repr

/-- Trade record from src/matcher/src/types.rs (with the user-id fields used
by orderbook.rs). -/
structure Trade where
  id : Nat
  taker_order_id : Nat
  maker_order_id : Nat
  taker_user_id : Nat
  maker_user_id : Nat
  quantity : Nat
  price_tick : Nat
  timestamp : Nat
deriving DecidableEq, Repr

/-- PriceLevel from src/matcher/src/orderbook.rs: a FIFO of resting orders
(front = list head) plus the cached open quantity. -/
structure PriceLevel where
  orders : List Order
  total_quantity : Nat
deriving DecidableEq, Repr

/-- One side of the book (OrderbookSide in orderbook.rs); `levels` models the
BTreeMap as a unique-key association list. -/
structure OrderbookSide where
  best_tick : Option Nat
  worst_tick : Option Nat
  higher_is_better : Bool
  levels : List (Nat × PriceLevel)
deriving DecidableEq, Repr

/-- OrderBook from src/matcher/src/orderbook.rs. -/
structure OrderBook where
  symbol : String
  ask_side : OrderbookSide
  bid_side : OrderbookSide
  tick_multiplier : Nat
  order_id_counter : Nat
  trade_id_counter : Nat
  total_orders : Nat
deriving DecidableEq, Repr

/-- Lookup of a price level by key (BTreeMap::get). -/
def lookupLevel (m : List (Nat × PriceLevel)) (k : Nat) : Option PriceLevel :=
  match m with
  | [] => none
  | (k', v) :: rest => if k' = k then some v else lookupLevel rest k

/-- Replace the value stored at an existing key (BTreeMap::get_mut followed by
in-place mutation); a no-op when the key is absent. -/
def setLevel (m : List (Nat × PriceLevel)) (k : Nat) (v : PriceLevel) :
    List (Nat × PriceLevel) :=
  match m with
  | [] => []
  | (k', v') :: rest =>
    if k' = k then (k', v) :: rest else (k', v') :: setLevel rest k v

/-- Remove a key (BTreeMap::remove). -/
def eraseLevel (m : List (Nat × PriceLevel)) (k : Nat) : List (Nat × PriceLevel) :=
  match m with
  | [] => []
  | (k', v') :: rest =>
    if k' = k then rest else (k', v') :: eraseLevel rest k

/-- Insert at an existing key or append a fresh binding
(BTreeMap::entry(k).or_insert(dflt) followed by mutation to v). -/
def upsertLevel (m : List (Nat × PriceLevel)) (k : Nat) (v : PriceLevel) :
    List (Nat × PriceLevel) :=
  match m with
  | [] => [(k, v)]
  | (k', v') :: rest =>
    if k' = k then (k', v) :: rest else (k', v') :: upsertLevel rest k v

/-- Greatest key of the map (BTreeMap::last_key_value / keys().max() on the
sorted Rust map). -/
def maxKey? (m : List (Nat × PriceLevel)) : Option Nat :=
  match m with
  | [] => none
  | (k, _) :: rest =>
    some (match maxKey? rest with
          | none => k
          | some r => Nat.max k r)

/-- Least key of the map (BTreeMap::first_key_value / keys().min()). -/
def minKey? (m : List (Nat × PriceLevel)) : Option Nat :=
  match m with
  | [] => none
  | (k, _) :: rest =>
    some (match minKey? rest with
          | none => k
          | some r => Nat.min k r)

/-- Inclusive ascending integer range, Rust's `a..=b` collected in order
(empty when a > b). -/
def rangeIncl (a b : Nat) : List Nat :=
  (List.range (b + 1 - a)).map (a + ·)

/-- OrderBook::new. -/
def OrderBook.new (symbol : String) (tick_multiplier : Nat) : OrderBook :=
  { symbol := symbol
    ask_side := { best_tick := none, worst_tick := none,
                  higher_is_better := false, levels := [] }
    bid_side := { best_tick := none, worst_tick := none,
                  higher_is_better := true, levels := [] }
    tick_multiplier := tick_multiplier
    order_id_counter := 0
    trade_id_counter := 0
    total_orders := 0 }

/-- OrderBook::get_opposite_best_tick. -/
def OrderBook.get_opposite_best_tick (b : OrderBook) (side : OrderSide) : Option Nat :=
  match side with
  | .Bid => b.ask_side.best_tick
  | .Ask => b.bid_side.best_tick

/-- Read accessor matching OrderBook::get_side_mut's side selection. -/
def OrderBook.getSide (b : OrderBook) (side : OrderSide) : OrderbookSide :=
  match side with
  | .Bid => b.bid_side
  | .Ask => b.ask_side

/-- Write the selected side back into the book (the effect of mutating
through get_side_mut). -/
def OrderBook.putSide (b : OrderBook) (side : OrderSide) (s : OrderbookSide) : OrderBook :=
  match side with
  | .Bid => { b with bid_side := s }
  | .Ask => { b with ask_side := s }

/-- OrderBook::update_side_ticks, expressed on a single side value. -/
def updateSideTicks (s : OrderbookSide) : OrderbookSide :=
  if s.levels = [] then
    { s with best_tick := none, worst_tick := none }
  else if s.higher_is_better then
    { s with best_tick := maxKey? s.levels, worst_tick := minKey? s.levels }
  else
    { s with best_tick := minKey? s.levels, worst_tick := maxKey? s.levels }

/-- OrderBook::update_side_ticks acting on the book. -/
def OrderBook.update_side_ticks (b : OrderBook) (side : OrderSide) : OrderBook :=
  b.putSide side (updateSideTicks (b.getSide side))

/-- OrderBook::update_price_ticks_after_match: refresh the side that was
matched against (the side opposite to the taker). -/
def OrderBook.update_price_ticks_after_match (b : OrderBook) (order_side : OrderSide) :
    OrderBook :=
  match order_side with
  | .Ask => b.update_side_ticks .Bid
  | .Bid => b.update_side_ticks .Ask

/-- OrderBook::get_tick_iter_bounds. The two `unwrap`s are only evaluated when
the caller has checked the corresponding tick is present; `getD` supplies the
Rust `unwrap_or` defaults where the source has them and a dummy 0 for the
guarded `unwrap`. -/
def OrderBook.get_tick_iter_bounds (b : OrderBook) (order : Order) : Nat × Nat :=
  let opposite_side := match order.side with
    | .Bid => b.ask_side
    | .Ask => b.bid_side
  let start_tick := opposite_side.best_tick.getD 0
  let end_tick :=
    if order.price_tick = 0 then
      match order.side with
      | .Ask => b.bid_side.worst_tick.getD 0
      | .Bid => b.ask_side.worst_tick.getD (2 ^ 64 - 1)
    else order.price_tick
  if order.price_tick > 0 then
    match order.side with
    | .Bid => if start_tick > end_tick then (0, 0) else (start_tick, end_tick)
    | .Ask => if start_tick < end_tick then (0, 0) else (start_tick, end_tick)
  else (start_tick, end_tick)

/-- Accumulating scan of can_fill_fok's per-tick loop: add each visited level's
total_quantity and succeed as soon as the running sum covers the order. -/
def fokScan (levels : List (Nat × PriceLevel)) (qty : Nat) :
    List Nat → Nat → Bool
  | [], _ => false
  | t :: rest, acc =>
    let acc' := match lookupLevel levels t with
      | some lvl => acc + lvl.total_quantity
      | none => acc
    if qty ≤ acc' then true else fokScan levels qty rest acc'

/-- OrderBook::can_fill_fok. -/
def OrderBook.can_fill_fok (b : OrderBook) (order : Order) : Bool :=
  match b.get_opposite_best_tick order.side with
  | none => false
  | some _ =>
    let bounds := b.get_tick_iter_bounds order
    let start_tick := bounds.1
    let end_tick := bounds.2
    let opposite_levels := (match order.side with
      | .Bid => b.ask_side
      | .Ask => b.bid_side).levels
    if start_tick ≤ end_tick then
      fokScan opposite_levels order.quantity (rangeIncl start_tick end_tick) 0
    else
      fokScan opposite_levels order.quantity ((rangeIncl end_tick start_tick).reverse) 0

/-- Result of draining one price level's FIFO against the taker
(the inner `while let Some(resting_order) = level.orders.pop_front()` loop of
OrderBook::match_order). `broke` records that the taker became full and the
source hit `break 'outer`. -/
structure LevelRun where
  taker : Order
  queue : List Order
  tq : Nat
  trades : List Trade
  trade_ctr : Nat
  removed : Nat
  broke : Bool
deriving Repr

/-- Inner loop of OrderBook::match_order over one level's order queue.
Returns `none` exactly when the source would hit the `unreachable!` panic on a
zero-quantity fill (directly, or by re-popping a partially filled maker it just
pushed back while the taker still has residual). -/
def runLevel (ts : Nat) (taker : Order) (tc : Nat) :
    List Order → Nat → Option LevelRun
  | [], tq => some ⟨taker, [], tq, [], tc, 0, false⟩
  | o :: rest, tq =>
    if o.is_cancelled then
      runLevel ts taker tc rest tq
    else
      let fill := Nat.min (taker.quantity - taker.quantity_filled)
        (o.quantity - o.quantity_filled)
      if fill = 0 then
        none
      else
        let tr : Trade :=
          { id := tc, taker_order_id := taker.id, maker_order_id := o.id,
            taker_user_id := taker.user_id, maker_user_id := o.user_id,
            quantity := fill, price_tick := o.price_tick, timestamp := ts }
        let taker' := { taker with quantity_filled := taker.quantity_filled + fill }
        let o' := { o with quantity_filled := o.quantity_filled + fill }
        let tq' := tq - fill
        if o'.quantity_filled < o'.quantity then
          if taker'.quantity_filled = taker'.quantity then
            some ⟨taker', o' :: rest, tq', [tr], tc + 1, 0, true⟩
          else
            none
        else
          if taker'.quantity_filled = taker'.quantity then
            some ⟨taker', rest, tq', [tr], tc + 1, 1, true⟩
          else
            match runLevel ts taker' (tc + 1) rest tq' with
            | none => none
            | some r =>
              some { r with trades := tr :: r.trades, removed := r.removed + 1 }

/-- Threaded state of the outer tick loop of OrderBook::match_order: the
opposite side's level map, the taker, the accumulated trades, the trade-id
counter and the number of fully consumed resting orders. -/
structure MatchState where
  levels : List (Nat × PriceLevel)
  taker : Order
  trades : List Trade
  trade_ctr : Nat
  removed : Nat
deriving Repr

/-- One iteration of the `'outer: for tick in tick_range` loop: drain the
level at `tick` (if present), then remove it when its total quantity reached 0
(this covers both the `break 'outer` removal and the post-loop removal in the
source, which fire under the same condition). -/
def runTick (ts tick : Nat) (st : MatchState) : Option (MatchState × Bool) :=
  match lookupLevel st.levels tick with
  | none => some (st, false)
  | some lvl =>
    match runLevel ts st.taker st.trade_ctr lvl.orders lvl.total_quantity with
    | none => none
    | some r =>
      let levels' :=
        if r.tq = 0 then eraseLevel st.levels tick
        else setLevel st.levels tick ⟨r.queue, r.tq⟩
      some ({ levels := levels', taker := r.taker,
              trades := st.trades ++ r.trades,
              trade_ctr := r.trade_ctr,
              removed := st.removed + r.removed }, r.broke)

/-- The outer tick loop: stop early when a level run broke out
(taker fully filled). -/
def runTicks (ts : Nat) : List Nat → MatchState → Option MatchState
  | [], st => some st
  | t :: rest, st =>
    match runTick ts t st with
    | none => none
    | some (st', true) => some st'
    | some (st', false) => runTicks ts rest st'

/-- OrderBook::match_order. Returns the mutated book, the mutated taker and the
trades; `none` models the `unreachable!` panic paths. -/
def OrderBook.match_order (b : OrderBook) (order : Order) (ts : Nat) :
    Option (OrderBook × Order × List Trade) :=
  let bounds := b.get_tick_iter_bounds order
  let start_tick := bounds.1
  let end_tick := bounds.2
  if start_tick = 0 ∧ end_tick = 0 then
    some (b, order, [])
  else
    let tick_range :=
      if order.price_tick = 0 ∧ order.side = .Ask then
        (rangeIncl end_tick start_tick).reverse
      else if order.price_tick = 0 ∧ order.side = .Bid then
        rangeIncl start_tick end_tick
      else if start_tick ≥ end_tick then
        rangeIncl end_tick start_tick
      else
        rangeIncl start_tick end_tick
    let opp := match order.side with
      | .Bid => b.ask_side
      | .Ask => b.bid_side
    match runTicks ts tick_range
        ⟨opp.levels, order, [], b.trade_id_counter, 0⟩ with
    | none => none
    | some st =>
      let b' := b.putSide (match order.side with
                            | .Bid => OrderSide.Ask
                            | .Ask => OrderSide.Bid)
        { opp with levels := st.levels }
      let b' := { b' with trade_id_counter := st.trade_ctr,
                          total_orders := b'.total_orders - st.removed }
      some (b'.update_price_ticks_after_match order.side, st.taker, st.trades)

/-- OrderBook::add_limit_order. -/
def OrderBook.add_limit_order (b : OrderBook) (order : Order) : OrderBook :=
  let price_tick := order.price_tick
  let order_side := order.side
  let s := b.getSide order_side
  let lvl := (lookupLevel s.levels price_tick).getD ⟨[], 0⟩
  let lvl' : PriceLevel :=
    { orders := lvl.orders ++ [order],
      total_quantity := lvl.total_quantity + (order.quantity - order.quantity_filled) }
  let levels' := upsertLevel s.levels price_tick lvl'
  let s' :=
    if s.higher_is_better then
      { s with levels := levels', best_tick := maxKey? levels',
               worst_tick := minKey? levels' }
    else
      { s with levels := levels', best_tick := minKey? levels',
               worst_tick := maxKey? levels' }
  let b' := b.putSide order_side s'
  { b' with total_orders := b'.total_orders + 1 }

/-- OrderBook::add_order. Returns `none` exactly on the `unreachable!` panic
paths of the source (an FOK order surviving the pre-check with residual, or a
zero fill inside the matching loop). -/
def OrderBook.add_order (b : OrderBook) (user_id price_tick quantity : Nat)
    (side : OrderSide) (time_in_force : TimeInForce) (ts : Nat) :
    Option (OrderBook × Option Order × List Trade) :=
  let order_id := b.order_id_counter
  let b := { b with order_id_counter := b.order_id_counter + 1 }
  let best_tick := b.get_opposite_best_tick side
  if best_tick = none ∧ (time_in_force = .FOK ∨ time_in_force = .IOC) then
    some (b, none, [])
  else
    let order : Order :=
      { id := order_id, user_id := user_id, price_tick := price_tick,
        quantity := quantity, quantity_filled := 0, side := side,
        time_in_force := time_in_force, timestamp := ts, is_cancelled := false }
    if time_in_force = .FOK ∧ ¬ b.can_fill_fok order then
      some (b, none, [])
    else
      let afterMatch : Option (OrderBook × Order × List Trade) :=
        match best_tick with
        | some _ => b.match_order order ts
        | none => some (b, order, [])
      match afterMatch with
      | none => none
      | some (b, order, trades) =>
        let b :=
          if time_in_force = .GTC ∧ order.quantity_filled < order.quantity ∧
              0 < price_tick then
            b.add_limit_order order
          else b
        if order.quantity_filled < order.quantity then
          match time_in_force with
          | .FOK => none
          | .IOC => some (b, none, trades)
          | .GTC =>
            if 0 < price_tick then
              some (b, some order, trades)
            else if trades = [] then
              some (b, none, trades)
            else
              some (b, some order, trades)
        else
          some (b, some order, trades)

/-- Binary search over the level FIFO by order id, modelling
`VecDeque::binary_search_by_key(&order_id, |o| o.id)` on the half-open index
interval [lo, hi). The first argument is recursion fuel (the interval width
shrinks by at least one per step, so any fuel above the initial width makes
the fuel bound unreachable); structural recursion on it keeps the function
kernel-reducible. -/
def binSearchAux (q : List Order) (key : Nat) : Nat → Nat → Nat → Option Nat
  | 0, _, _ => none
  | fuel + 1, lo, hi =>
    if lo < hi then
      let mid := (lo + hi) / 2
      match q.get? mid with
      | none => none
      | some o =>
        if o.id = key then some mid
        else if o.id < key then binSearchAux q key fuel (mid + 1) hi
        else binSearchAux q key fuel lo mid
    else none

/-- Binary search over the whole queue. -/
def binSearchById (q : List Order) (key : Nat) : Option Nat :=
  binSearchAux q key (q.length + 1) 0 q.length

/-- OrderBook::cancel_order. Returns the mutated book and the success flag. -/
def OrderBook.cancel_order (b : OrderBook) (order_id price_tick : Nat)
    (side : OrderSide) : OrderBook × Bool :=
  let s := b.getSide side
  match lookupLevel s.levels price_tick with
  | none => (b, false)
  | some level =>
    match binSearchById level.orders order_id with
    | none => (b, false)
    | some index =>
      match level.orders.get? index with
      | none => (b, false)
      | some o =>
        if o.side ≠ side then (b, false)
        else
          let remaining_quantity_after_cancel :=
            level.total_quantity - (o.quantity - o.quantity_filled)
          let need_update_ticks := remaining_quantity_after_cancel = 0
          let order_side_value := o.side
          if o.is_cancelled then (b, false)
          else
            let o' := { o with is_cancelled := true }
            let level' : PriceLevel :=
              { orders := level.orders.set index o',
                total_quantity := level.total_quantity - (o.quantity - o.quantity_filled) }
            let s' :=
              if level'.total_quantity = 0 then
                { s with levels := eraseLevel s.levels price_tick }
              else
                { s with levels := setLevel s.levels price_tick level' }
            let b' := b.putSide side s'
            let b' := { b' with total_orders := b'.total_orders - 1 }
            let b' :=
              if need_update_ticks then b'.update_side_ticks order_side_value
              else b'
            (b', true)

/-- OrderBook::get_order_by_id: scan bid levels, then ask levels. -/
def findInLevels (levels : List (Nat × PriceLevel)) (order_id : Nat) : Option Order :=
  match levels with
  | [] => none
  | (_, lvl) :: rest =>
    match lvl.orders.find? (fun o => o.id = order_id) with
    | some o => some o
    | none => findInLevels rest order_id

/-- OrderBook::get_order_by_id. -/
def OrderBook.get_order_by_id (b : OrderBook) (order_id : Nat) : Option Order :=
  match findInLevels b.bid_side.levels order_id with
  | some o => some o
  | none => findInLevels b.ask_side.levels order_id

end Matcher

namespace Gateway

open Matcher

/-- UserFunds from src/http-server/src/models/user.rs; the f64 balances are
modelled as exact rationals. -/
structure UserFunds where
  btc : ℚ
  sol : ℚ
  usd : ℚ
deriving DecidableEq, Repr

/-- Default seed balances from user.rs. -/
def UserFunds.default : UserFunds :=
  { btc := 100, sol := 10000, usd := 100000 }

/-- The account store keyed by user_id. The Rust HashMap lookup by user_id is
modelled as a total function; the claims below only exercise users that exist,
so the "User not found" error paths of database.rs never fire for them. -/
def Accounts : Type := Nat → UserFunds

/-- Write one user's funds back into the store. -/
def updAcct (acc : Accounts) (user_id : Nat) (f : UserFunds) : Accounts :=
  fun u => if u = user_id then f else acc u

/-- InMemoryStorage::debit_funds_for_order from database.rs. -/
def debit_funds_for_order (acc : Accounts) (user_id : Nat) (symbol : String)
    (side : OrderSide) (quantity price_tick tick_multiplier : Nat) :
    Except String Accounts :=
  let user := acc user_id
  let quantity_amount : ℚ := (quantity : ℚ) / (tick_multiplier : ℚ)
  let price_amount : ℚ := (price_tick : ℚ) / (tick_multiplier : ℚ)
  let cost_amount := quantity_amount * price_amount
  match side with
  | .Bid =>
    if user.usd < cost_amount then Except.error ("Insufficient USD funds")
    else Except.ok (updAcct acc user_id { user with usd := user.usd - cost_amount })
  | .Ask =>
    if symbol = "BTC-USD" then
      if user.btc < quantity_amount then Except.error ("Insufficient BTC funds")
      else Except.ok (updAcct acc user_id { user with btc := user.btc - quantity_amount })
    else if symbol = "SOL-USD" then
      if user.sol < quantity_amount then Except.error ("Insufficient SOL funds")
      else Except.ok (updAcct acc user_id { user with sol := user.sol - quantity_amount })
    else Except.error ("Unsupported symbol")

/-- InMemoryStorage::credit_funds_back from database.rs. -/
def credit_funds_back (acc : Accounts) (user_id : Nat) (symbol : String)
    (side : OrderSide) (quantity price_tick tick_multiplier : Nat) :
    Except String Accounts :=
  let user := acc user_id
  let quantity_amount : ℚ := (quantity : ℚ) / (tick_multiplier : ℚ)
  let price_amount : ℚ := (price_tick : ℚ) / (tick_multiplier : ℚ)
  let refund_amount := quantity_amount * price_amount
  match side with
  | .Bid =>
    Except.ok (updAcct acc user_id { user with usd := user.usd + refund_amount })
  | .Ask =>
    if symbol = "BTC-USD" then
      Except.ok (updAcct acc user_id { user with btc := user.btc + quantity_amount })
    else if symbol = "SOL-USD" then
      Except.ok (updAcct acc user_id { user with sol := user.sol + quantity_amount })
    else Except.error ("Unsupported symbol")

/-- InMemoryStorage::settle_trade from database.rs, including the self-trade
branch taken when taker and maker are the same user. -/
def settle_trade (trade : Trade) (symbol : String) (acc : Accounts)
    (taker_user_id maker_user_id : Nat) (tick_multiplier : Nat) :
    Except String Accounts :=
  let quantity_amount : ℚ := (trade.quantity : ℚ) / (tick_multiplier : ℚ)
  let price_amount : ℚ := (trade.price_tick : ℚ) / (tick_multiplier : ℚ)
  let usd_amount := quantity_amount * price_amount
  if taker_user_id = maker_user_id then
    let user := acc taker_user_id
    if symbol = "BTC-USD" then
      Except.ok (updAcct acc taker_user_id
        { user with btc := user.btc + quantity_amount, usd := user.usd + usd_amount })
    else if symbol = "SOL-USD" then
      Except.ok (updAcct acc taker_user_id
        { user with sol := user.sol + quantity_amount, usd := user.usd + usd_amount })
    else Except.error ("Unsupported symbol")
  else
    let taker := acc taker_user_id
    let maker := acc maker_user_id
    if symbol = "BTC-USD" then
      Except.ok (updAcct
        (updAcct acc taker_user_id
          { taker with btc := taker.btc + quantity_amount, usd := taker.usd - usd_amount })
        maker_user_id
        { maker with btc := maker.btc - quantity_amount, usd := maker.usd + usd_amount })
    else if symbol = "SOL-USD" then
      Except.ok (updAcct
        (updAcct acc taker_user_id
          { taker with sol := taker.sol + quantity_amount, usd := taker.usd - usd_amount })
        maker_user_id
        { maker with sol := maker.sol - quantity_amount, usd := maker.usd + usd_amount })
    else Except.error ("Unsupported symbol")

/-- InMemoryStorage::handle_partial_fill_refund from database.rs. -/
def handle_partial_fill_refund (acc : Accounts) (user_id : Nat) (symbol : String)
    (side : OrderSide) (unfilled_quantity price_tick tick_multiplier : Nat) :
    Except String Accounts :=
  let user := acc user_id
  let quantity_amount : ℚ := (unfilled_quantity : ℚ) / (tick_multiplier : ℚ)
  let price_amount : ℚ := (price_tick : ℚ) / (tick_multiplier : ℚ)
  let refund_amount := quantity_amount * price_amount
  match side with
  | .Bid =>
    Except.ok (updAcct acc user_id { user with usd := user.usd + refund_amount })
  | .Ask =>
    if symbol = "BTC-USD" then
      Except.ok (updAcct acc user_id { user with btc := user.btc + quantity_amount })
    else if symbol = "SOL-USD" then
      Except.ok (updAcct acc user_id { user with sol := user.sol + quantity_amount })
    else Except.error ("Unsupported symbol")

/-- Settlement loop of the add_order route (routes/orders.rs): settle every
trade; a failed settlement is logged and the loop continues, so an error
leaves the store untouched for that trade. -/
def settleAll (symbol : String) (tick_multiplier : Nat) (trades : List Trade)
    (acc : Accounts) : Accounts :=
  trades.foldl (fun a t =>
    match settle_trade t symbol a t.taker_user_id t.maker_user_id tick_multiplier with
    | .ok a' => a'
    | .error _ => a) acc

/-- Outcome of the gateway add_order route. -/
structure GatewayResult where
  book : OrderBook
  accounts : Accounts
  order : Option Order
  trades : List Trade
  success : Bool

/-- The add_order route of src/http-server/src/routes/orders.rs for one
symbol's book: validate quantity, debit entry funds, call the book, settle
every trade, then apply the post-placement refund rules. `none` propagates a
book panic; the `let _ =` on the Rust refund calls becomes "keep the store on
error". -/
def gateway_add_order (book : OrderBook) (acc : Accounts) (symbol : String)
    (user_id price_tick quantity : Nat) (side : OrderSide) (tif : TimeInForce)
    (ts : Nat) : Option GatewayResult :=
  if quantity = 0 then some ⟨book, acc, none, [], false⟩
  else
    let tick_multiplier := book.tick_multiplier
    match debit_funds_for_order acc user_id symbol side quantity price_tick
        tick_multiplier with
    | .error _ => some ⟨book, acc, none, [], false⟩
    | .ok acc1 =>
      match book.add_order user_id price_tick quantity side tif ts with
      | none => none
      | some (book1, order, trades) =>
        let acc2 := settleAll symbol tick_multiplier trades acc1
        let acc3 :=
          match order with
          | none =>
            match credit_funds_back acc2 user_id symbol side quantity price_tick
                tick_multiplier with
            | .ok a => a
            | .error _ => acc2
          | some placed_order =>
            let unfilled_quantity := placed_order.quantity - placed_order.quantity_filled
            if 0 < unfilled_quantity ∧ 0 < placed_order.quantity_filled then
              match handle_partial_fill_refund acc2 user_id symbol side
                  unfilled_quantity price_tick tick_multiplier with
              | .ok a => a
              | .error _ => acc2
            else acc2
        some ⟨book1, acc3, order, trades, order.isSome⟩

/-- Outcome of the gateway cancel_order route. -/
structure CancelResult where
  book : OrderBook
  accounts : Accounts
  success : Bool

/-- The cancel_order route of routes/orders.rs: cancel in the book, then look
the order up by id in the mutated book and refund its unfilled residual. -/
def gateway_cancel_order (book : OrderBook) (acc : Accounts) (symbol : String)
    (user_id order_id price_tick : Nat) (side : OrderSide) : CancelResult :=
  let tick_multiplier := book.tick_multiplier
  let r := book.cancel_order order_id price_tick side
  let book1 := r.1
  let success := r.2
  let acc1 :=
    if success then
      match book1.get_order_by_id order_id with
      | some cancelled_order =>
        let unfilled_quantity :=
          cancelled_order.quantity - cancelled_order.quantity_filled
        if 0 < unfilled_quantity then
          match credit_funds_back acc user_id symbol side unfilled_quantity
              price_tick tick_multiplier with
          | .ok a => a
          | .error _ => acc
        else acc
      | none => acc
    else acc
  ⟨book1, acc1, success⟩

end Gateway

namespace Matcher

/-- Keys of a level map. -/
def keysOf (m : List (Nat × PriceLevel)) : List Nat :=
  m.map Prod.fst

/-- Some order with the given id rests in one of these levels. -/
def InLevels (levels : List (Nat × PriceLevel)) (i : Nat) : Prop :=
  ∃ kl ∈ levels, ∃ o ∈ kl.2.orders, o.id = i

/-- Some order with the given id rests somewhere in the book. -/
def InBook (b : OrderBook) (i : Nat) : Prop :=
  InLevels b.bid_side.levels i ∨ InLevels b.ask_side.levels i

/-- The level FIFO is strictly ascending by order id from front to back. -/
def idsSorted (q : List Order) : Prop :=
  (q.map Order.id).Pairwise (· < ·)

/-- The side's cached extrema agree with the extrema of its level-map keys
under its polarity. -/
def sideTicksOk (s : OrderbookSide) : Prop :=
  s.best_tick = (if s.higher_is_better then maxKey? s.levels else minKey? s.levels) ∧
  s.worst_tick = (if s.higher_is_better then minKey? s.levels else maxKey? s.levels)

/-- Well-formedness of one side: correct polarity flag, correct cached
extrema, unique level keys, and per level a strictly id-sorted FIFO of orders
carrying this side's tag and ids below the book's order-id counter. -/
def sideWF (s : OrderbookSide) (tag : OrderSide) (ctr : Nat) (hib : Bool) : Prop :=
  s.higher_is_better = hib ∧ sideTicksOk s ∧ (keysOf s.levels).Nodup ∧
  ∀ kl ∈ s.levels, idsSorted kl.2.orders ∧
    ∀ o ∈ kl.2.orders, o.side = tag ∧ o.id < ctr

/-- Well-formedness of the whole book. -/
def WF (b : OrderBook) : Prop :=
  sideWF b.bid_side .Bid b.order_id_counter true ∧
  sideWF b.ask_side .Ask b.order_id_counter false

/-- Book states reachable from a fresh book by non-panicking add_order calls
and cancel_order calls. -/
inductive Reachable : OrderBook → Prop where
  | base (symbol : String) (tick_multiplier : Nat) :
      Reachable (OrderBook.new symbol tick_multiplier)
  | add {b : OrderBook} {uid pt q : Nat} {side : OrderSide} {tif : TimeInForce}
      {ts : Nat} {b' : OrderBook} {r : Option Order} {t : List Trade} :
      Reachable b → b.add_order uid pt q side tif ts = some (b', r, t) →
      Reachable b'
  | cancel {b : OrderBook} {oid pt : Nat} {side : OrderSide} :
      Reachable b → Reachable (b.cancel_order oid pt side).1

end Matcher

namespace Scenario

open Matcher Gateway

/-- Seed account store: every user holds the default balances. -/
def acc0 : Accounts := fun _ => UserFunds.default

/-- Fresh BTC-USD book with two decimal places. -/
def b0 : OrderBook := OrderBook.new "BTC-USD" 100

/-- Extract the book of a non-panicking add_order result. -/
def bookOf (r : Option (OrderBook × Option Order × List Trade)) : OrderBook :=
  (r.map fun x => x.1).getD b0

/-- Extract the accepted order of a non-panicking add_order result. -/
def orderOf (r : Option (OrderBook × Option Order × List Trade)) : Option Order :=
  (r.map fun x => x.2.1).getD none

/-- Extract the trades of a non-panicking add_order result. -/
def tradesOf (r : Option (OrderBook × Option Order × List Trade)) : List Trade :=
  (r.map fun x => x.2.2).getD []

/-- C1 scenario, pre-state: resting bids 101 × 5 (user 1) and 102 × 5
(user 2). -/
def c1Book : OrderBook :=
  bookOf ((bookOf (b0.add_order 1 101 5 .Bid .GTC 0)).add_order 2 102 5 .Bid .GTC 0)

/-- C1 scenario: the incoming limit Ask 101 × 10 against `c1Book`. -/
def c1Run : Option (OrderBook × Option Order × List Trade) :=
  c1Book.add_order 3 101 10 .Ask .GTC 0

/-- C3 scenario, first leg: user 1 places Ask 101 × 5 GTC through the
gateway. -/
def c3First : Option GatewayResult :=
  gateway_add_order b0 acc0 "BTC-USD" 1 101 5 .Ask .GTC 0

/-- C3 scenario: user 2 places Bid 102 × 10 IOC, filling 5 @ 101. -/
def c3Run : Option GatewayResult :=
  c3First.bind fun r1 =>
    gateway_add_order r1.book r1.accounts "BTC-USD" 2 102 10 .Bid .IOC 1

/-- Accounts after the settlement stage of the C3 IOC call (entry debit plus
settled trades, before any refund), rebuilt from the same ledger
operations the gateway uses. -/
def c3Settled : Accounts :=
  let accA := (c3First.map fun r => r.accounts).getD acc0
  let accDebited :=
    ((debit_funds_for_order accA 2 "BTC-USD" .Bid 10 102 100).toOption).getD accA
  settleAll "BTC-USD" 100 ((c3Run.map fun r => r.trades).getD []) accDebited

/-- The final store the claim predicts for C3: refund only the unfilled
residual (5 ticks) at the taker's price via handle_partial_fill_refund. -/
def c3ClaimAcc : Accounts :=
  ((handle_partial_fill_refund c3Settled 2 "BTC-USD" .Bid 5 102 100).toOption).getD
    c3Settled

/-- C4 scenario: same book as C3, but user 2's Bid 102 × 10 is GTC, so it
rests with 5 filled and 5 unfilled. -/
def c4Run : Option GatewayResult :=
  c3First.bind fun r1 =>
    gateway_add_order r1.book r1.accounts "BTC-USD" 2 102 10 .Bid .GTC 1

/-- Accounts after the settlement stage of the C4 GTC call (entry debit plus
settled trades, before any refund). -/
def c4Settled : Accounts :=
  let accA := (c3First.map fun r => r.accounts).getD acc0
  let accDebited :=
    ((debit_funds_for_order accA 2 "BTC-USD" .Bid 10 102 100).toOption).getD accA
  settleAll "BTC-USD" 100 ((c4Run.map fun r => r.trades).getD []) accDebited

/-- C5 scenario, placement: user 7 places GTC Bid 100 × 10 on the empty book;
it rests alone at its price level. -/
def c5Placed : Option GatewayResult :=
  gateway_add_order b0 acc0 "BTC-USD" 7 100 10 .Bid .GTC 0

/-- C5 scenario, cancellation of that order (id 0) through the gateway. -/
def c5Run : CancelResult :=
  gateway_cancel_order ((c5Placed.map fun r => r.book).getD b0)
    ((c5Placed.map fun r => r.accounts).getD acc0) "BTC-USD" 7 0 100 .Bid

/-- C9 / S6 scenario: user 7 places Ask 100 × 5 GTC, then Bid 100 × 5 GTC,
self-crossing completely. -/
def c9Run : Option GatewayResult :=
  (gateway_add_order b0 acc0 "BTC-USD" 7 100 5 .Ask .GTC 0).bind fun r1 =>
    gateway_add_order r1.book r1.accounts "BTC-USD" 7 100 5 .Bid .GTC 1

/-- Placeholder order record for `Option.getD` extractions. -/
def dOrder : Order :=
  { id := 0, user_id := 0, price_tick := 0, quantity := 0, quantity_filled := 0,
    side := .Bid, time_in_force := .GTC, timestamp := 0, is_cancelled := false }

/-- Book after the C3/C4 first leg (resting Ask 101 × 5 of user 1). -/
def c3BookA : OrderBook := (c3First.map fun r => r.book).getD b0

/-- Accounts after the C3/C4 first leg. -/
def c3AccA : Accounts := (c3First.map fun r => r.accounts).getD acc0

/-- Accounts after debiting user 2's Bid 102 × 10 entry. -/
def c3AccDebited : Accounts :=
  ((debit_funds_for_order c3AccA 2 "BTC-USD" .Bid 10 102 100).toOption).getD c3AccA

/-- Book returned by the C3 IOC book call. -/
def c3Book1 : OrderBook := bookOf (c3BookA.add_order 2 102 10 .Bid .IOC 1)

/-- Trades returned by the C3 IOC book call. -/
def c3Trades : List Trade := tradesOf (c3BookA.add_order 2 102 10 .Bid .IOC 1)

/-- Book returned by the C4 GTC book call. -/
def c4Book1 : OrderBook := bookOf (c3BookA.add_order 2 102 10 .Bid .GTC 1)

/-- Resting order returned by the C4 GTC book call. -/
def c4Order : Order := (orderOf (c3BookA.add_order 2 102 10 .Bid .GTC 1)).getD dOrder

/-- Trades returned by the C4 GTC book call. -/
def c4Trades : List Trade := tradesOf (c3BookA.add_order 2 102 10 .Bid .GTC 1)

/-- C7 witness, step 1: GTC Bid 101 × 10 rests (order id 0). -/
def c7wA : OrderBook := bookOf (b0.add_order 1 101 10 .Bid .GTC 0)

/-- Order returned by the C7 witness step 1. -/
def c7wAr : Option Order := orderOf (b0.add_order 1 101 10 .Bid .GTC 0)

/-- Trades returned by the C7 witness step 1. -/
def c7wAt : List Trade := tradesOf (b0.add_order 1 101 10 .Bid .GTC 0)

/-- C7 witness, step 2: GTC Bid 100 × 5 rests below (order id 1). -/
def c7wB : OrderBook := bookOf (c7wA.add_order 2 100 5 .Bid .GTC 1)

/-- Order returned by the C7 witness step 2. -/
def c7wBr : Option Order := orderOf (c7wA.add_order 2 100 5 .Bid .GTC 1)

/-- Trades returned by the C7 witness step 2. -/
def c7wBt : List Trade := tradesOf (c7wA.add_order 2 100 5 .Bid .GTC 1)

/-- C7 witness, step 3: cancel the best bid; the cached extrema move. -/
def c7wC : OrderBook := (c7wB.cancel_order 0 101 .Bid).1

/-- Level read back for the C10 witness. -/
def c10wLvl : PriceLevel :=
  (lookupLevel (c7wB.getSide .Bid).levels 101).getD ⟨[], 0⟩

/-- C2 witness book: a resting Ask 101 × 5, so a Bid 101 × 10 FOK is
infeasible. -/
def c2wBook : OrderBook := bookOf (b0.add_order 1 101 5 .Ask .GTC 0)

/-- Book returned by the C6 witness IOC call against `c2wBook`. -/
def c6wBook1 : OrderBook := bookOf (c2wBook.add_order 2 102 10 .Bid .IOC 1)

/-- Trades returned by the C6 witness IOC call. -/
def c6wTrades : List Trade := tradesOf (c2wBook.add_order 2 102 10 .Bid .IOC 1)

/-- The C2 witness book after the rejected FOK call: only the order-id
counter advanced. -/
def c2wAfter : OrderBook :=
  { c2wBook with order_id_counter := c2wBook.order_id_counter + 1 }

end Scenario

/-- C9 witness trade: user 9 self-crosses, 5 ticks at price tick 100. -/
def c9wTrade : Matcher.Trade :=
  { id := 0, taker_order_id := 1, maker_order_id := 0, taker_user_id := 9,
    maker_user_id := 9, quantity := 5, price_tick := 100, timestamp := 0 }

namespace Matcher

/-- Each trade emitted by the inner level loop consumed one trade id. -/
theorem runLevel_trade_ctr :
    ∀ (q : List Order) (ts : Nat) (taker : Order) (tc tq : Nat) (r : LevelRun),
      runLevel ts taker tc q tq = some r → r.trade_ctr = tc + r.trades.length := by
  intro q
  induction q with
  | nil =>
    intro ts taker tc tq r h
    simp only [runLevel, Option.some.injEq] at h
    subst h
    simp
  | cons o rest ih =>
    intro ts taker tc tq r h
    simp only [runLevel] at h
    split at h
    · exact ih ts taker tc tq r h
    · split at h
      · exact absurd h (by simp)
      · split at h
        · split at h
          · simp only [Option.some.injEq] at h
            subst h
            simp
          · exact absurd h (by simp)
        · split at h
          · simp only [Option.some.injEq] at h
            subst h
            simp
          · split at h
            · exact absurd h (by simp)
            · rename_i r2 heq
              simp only [Option.some.injEq] at h
              subst h
              have := ih ts _ (tc + 1) _ r2 heq
              simp only [List.length_cons]
              omega

/-- Every order left in the queue by the inner level loop is a residue of an
order that was already there: same id and same side. -/
theorem runLevel_queue_mem :
    ∀ (q : List Order) (ts : Nat) (taker : Order) (tc tq : Nat) (r : LevelRun),
      runLevel ts taker tc q tq = some r →
      ∀ o' ∈ r.queue, ∃ o ∈ q, o'.id = o.id ∧ o'.side = o.side := by
  intro q
  induction q with
  | nil =>
    intro ts taker tc tq r h
    simp only [runLevel, Option.some.injEq] at h
    subst h
    simp
  | cons o rest ih =>
    intro ts taker tc tq r h
    simp only [runLevel] at h
    split at h
    · intro o' ho'
      obtain ⟨w, hw, hid, hside⟩ := ih ts taker tc tq r h o' ho'
      exact ⟨w, List.mem_cons_of_mem o hw, hid, hside⟩
    · split at h
      · exact absurd h (by simp)
      · split at h
        · split at h
          · simp only [Option.some.injEq] at h
            subst h
            intro o' ho'
            rcases List.mem_cons.mp ho' with h1 | h1
            · subst h1
              exact ⟨o, List.mem_cons_self o rest, rfl, rfl⟩
            · exact ⟨o', List.mem_cons_of_mem o h1, rfl, rfl⟩
          · exact absurd h (by simp)
        · split at h
          · simp only [Option.some.injEq] at h
            subst h
            intro o' ho'
            exact ⟨o', List.mem_cons_of_mem o ho', rfl, rfl⟩
          · split at h
            · exact absurd h (by simp)
            · rename_i r2 heq
              simp only [Option.some.injEq] at h
              subst h
              intro o' ho'
              obtain ⟨w, hw, hid, hside⟩ := ih ts _ (tc + 1) _ r2 heq o' ho'
              exact ⟨w, List.mem_cons_of_mem o hw, hid, hside⟩

/-- Membership in an erased map implies membership in the original. -/
theorem mem_eraseLevel {m : List (Nat × PriceLevel)} {k : Nat}
    {kl : Nat × PriceLevel} (h : kl ∈ eraseLevel m k) : kl ∈ m := by
  induction m with
  | nil => simp [eraseLevel] at h
  | cons p rest ih =>
    simp only [eraseLevel] at h
    split at h
    · exact List.mem_cons_of_mem p h
    · rcases List.mem_cons.mp h with h1 | h1
      · exact h1 ▸ List.mem_cons_self p rest
      · exact List.mem_cons_of_mem p (ih h1)

/-- Membership in a set map: either an original binding or the new one. -/
theorem mem_setLevel {m : List (Nat × PriceLevel)} {k : Nat} {v : PriceLevel}
    {kl : Nat × PriceLevel} (h : kl ∈ setLevel m k v) : kl ∈ m ∨ kl = (k, v) := by
  induction m with
  | nil => simp [setLevel] at h
  | cons p rest ih =>
    obtain ⟨k1, v1⟩ := p
    simp only [setLevel] at h
    split at h
    · rename_i heq
      subst heq
      rcases List.mem_cons.mp h with h1 | h1
      · exact Or.inr h1
      · exact Or.inl (List.mem_cons_of_mem _ h1)
    · rcases List.mem_cons.mp h with h1 | h1
      · exact Or.inl (h1 ▸ List.mem_cons_self _ rest)
      · rcases ih h1 with h2 | h2
        · exact Or.inl (List.mem_cons_of_mem _ h2)
        · exact Or.inr h2

/-- A successful lookup is a binding of the map. -/
theorem lookupLevel_mem {m : List (Nat × PriceLevel)} {k : Nat} {lvl : PriceLevel}
    (h : lookupLevel m k = some lvl) : (k, lvl) ∈ m := by
  induction m with
  | nil => simp [lookupLevel] at h
  | cons p rest ih =>
    simp only [lookupLevel] at h
    split at h
    · rename_i heq
      simp only [Option.some.injEq] at h
      subst h
      exact heq ▸ List.mem_cons_self p rest
    · exact List.mem_cons_of_mem p (ih h)

/-- One tick of the matching loop only removes or shrinks resting orders:
resulting ids are among the original ones, and the trade counter advances by
exactly the number of new trades. -/
theorem runTick_spec {ts t : Nat} {st st' : MatchState} {brk : Bool}
    (h : runTick ts t st = some (st', brk)) :
    (∀ i, InLevels st'.levels i → InLevels st.levels i) ∧
    (∃ tr, st'.trades = st.trades ++ tr ∧
      st'.trade_ctr = st.trade_ctr + tr.length) := by
  unfold runTick at h
  split at h
  · simp only [Option.some.injEq, Prod.mk.injEq] at h
    obtain ⟨h1, -⟩ := h
    subst h1
    exact ⟨fun i hi => hi, [], by simp, by simp⟩
  · rename_i lvl hlook
    split at h
    · exact absurd h (by simp)
    · rename_i r hrun
      simp only [Option.some.injEq, Prod.mk.injEq] at h
      obtain ⟨h1, -⟩ := h
      subst h1
      constructor
      · intro i hi
        simp only at hi
        obtain ⟨kl, hkl, o', ho', hid⟩ := hi
        split at hkl
        · exact ⟨kl, mem_eraseLevel hkl, o', ho', hid⟩
        · rcases mem_setLevel hkl with h2 | h2
          · exact ⟨kl, h2, o', ho', hid⟩
          · subst h2
            simp only at ho'
            obtain ⟨w, hw, hwid, -⟩ :=
              runLevel_queue_mem lvl.orders ts st.taker st.trade_ctr
                lvl.total_quantity r hrun o' ho'
            exact ⟨(t, lvl), lookupLevel_mem hlook, w, hw, hwid ▸ hid⟩
      · refine ⟨r.trades, by simp, ?_⟩
        simp only
        exact runLevel_trade_ctr lvl.orders ts st.taker st.trade_ctr
          lvl.total_quantity r hrun

/-- The whole tick sweep of the matching loop preserves the id set and
advances the trade counter by the number of emitted trades. -/
theorem runTicks_spec :
    ∀ (ticks : List Nat) (ts : Nat) (st st' : MatchState),
      runTicks ts ticks st = some st' →
      (∀ i, InLevels st'.levels i → InLevels st.levels i) ∧
      (∃ tr, st'.trades = st.trades ++ tr ∧
        st'.trade_ctr = st.trade_ctr + tr.length) := by
  intro ticks
  induction ticks with
  | nil =>
    intro ts st st' h
    simp only [runTicks, Option.some.injEq] at h
    subst h
    exact ⟨fun i hi => hi, [], by simp, by simp⟩
  | cons t rest ih =>
    intro ts st st' h
    simp only [runTicks] at h
    split at h
    · exact absurd h (by simp)
    · rename_i st1 heq
      obtain ⟨hids, tr1, htr1, hctr1⟩ := runTick_spec heq
      simp only [Option.some.injEq] at h
      subst h
      exact ⟨hids, tr1, htr1, hctr1⟩
    · rename_i st1 heq
      obtain ⟨hids, tr1, htr1, hctr1⟩ := runTick_spec heq
      obtain ⟨hids2, tr2, htr2, hctr2⟩ := ih ts st1 st' h
      refine ⟨fun i hi => hids i (hids2 i hi), tr1 ++ tr2, ?_, ?_⟩
      · rw [htr2, htr1, List.append_assoc]
      · rw [hctr2, hctr1, List.length_append]
        omega

/-- Refreshing a side's cached ticks does not change its level map. -/
theorem updateSideTicks_levels (s : OrderbookSide) :
    (updateSideTicks s).levels = s.levels := by
  unfold updateSideTicks
  split
  · rfl
  · split <;> rfl

/-- Matching only shrinks the id set of the book and advances the trade-id
counter by the number of emitted trades; the order-id counter and the taker's
own side are untouched. -/
theorem match_order_spec {b : OrderBook} {order : Order} {ts : Nat}
    {b' : OrderBook} {order' : Order} {trades : List Trade}
    (h : b.match_order order ts = some (b', order', trades)) :
    (∀ i, InBook b' i → InBook b i) ∧
    b'.trade_id_counter = b.trade_id_counter + trades.length ∧
    b'.order_id_counter = b.order_id_counter ∧
    b'.total_orders ≤ b.total_orders ∧
    (b'.getSide order.side = b.getSide order.side) := by
  unfold OrderBook.match_order at h
  simp only at h
  split at h
  · simp only [Option.some.injEq, Prod.mk.injEq] at h
    obtain ⟨h1, -, h3⟩ := h
    subst h1
    subst h3
    exact ⟨fun i hi => hi, by simp, rfl, le_refl _, rfl⟩
  · split at h
    · exact absurd h (by simp)
    · rename_i st hrt
      simp only [Option.some.injEq, Prod.mk.injEq] at h
      obtain ⟨h1, -, h3⟩ := h
      subst h1
      subst h3
      obtain ⟨hids, tr, htr, hctr⟩ := runTicks_spec _ ts _ st hrt
      simp only [List.nil_append] at htr
      subst htr
      simp only [List.length_nil, Nat.zero_add] at hctr
      cases hside : order.side with
      | Bid =>
        simp only [hside] at hids ⊢
        refine ⟨?_, by simp [OrderBook.update_price_ticks_after_match,
            OrderBook.update_side_ticks, OrderBook.putSide, OrderBook.getSide,
            updateSideTicks, hctr], by simp [OrderBook.update_price_ticks_after_match,
            OrderBook.update_side_ticks, OrderBook.putSide, OrderBook.getSide,
            updateSideTicks], by simp [OrderBook.update_price_ticks_after_match,
            OrderBook.update_side_ticks, OrderBook.putSide, OrderBook.getSide,
            updateSideTicks], by simp [OrderBook.update_price_ticks_after_match,
            OrderBook.update_side_ticks, OrderBook.putSide, OrderBook.getSide,
            updateSideTicks]⟩
        intro i hi
        unfold InBook at hi ⊢
        simp only [OrderBook.update_price_ticks_after_match,
          OrderBook.update_side_ticks, OrderBook.putSide, OrderBook.getSide,
          updateSideTicks] at hi
        rcases hi with hi | hi
        · exact Or.inl hi
        · split at hi
          · exact Or.inr (hids i hi)
          · split at hi
            · exact Or.inr (hids i hi)
            · exact Or.inr (hids i hi)
      | Ask =>
        simp only [hside] at hids ⊢
        refine ⟨?_, by simp [OrderBook.update_price_ticks_after_match,
            OrderBook.update_side_ticks, OrderBook.putSide, OrderBook.getSide,
            updateSideTicks, hctr], by simp [OrderBook.update_price_ticks_after_match,
            OrderBook.update_side_ticks, OrderBook.putSide, OrderBook.getSide,
            updateSideTicks], by simp [OrderBook.update_price_ticks_after_match,
            OrderBook.update_side_ticks, OrderBook.putSide, OrderBook.getSide,
            updateSideTicks], by simp [OrderBook.update_price_ticks_after_match,
            OrderBook.update_side_ticks, OrderBook.putSide, OrderBook.getSide,
            updateSideTicks]⟩
        intro i hi
        unfold InBook at hi ⊢
        simp only [OrderBook.update_price_ticks_after_match,
          OrderBook.update_side_ticks, OrderBook.putSide, OrderBook.getSide,
          updateSideTicks] at hi
        rcases hi with hi | hi
        · split at hi
          · exact Or.inl (hids i hi)
          · split at hi
            · exact Or.inl (hids i hi)
            · exact Or.inl (hids i hi)
        · exact Or.inr hi

/-- Freshness of an id bound follows from the same bound on every resting
order of both sides (a decidable premise on concrete books). -/
theorem inBook_lt_of_forall {b : OrderBook} {c : Nat}
    (hbid : ∀ kl ∈ b.bid_side.levels, ∀ o ∈ kl.2.orders, o.id < c)
    (hask : ∀ kl ∈ b.ask_side.levels, ∀ o ∈ kl.2.orders, o.id < c) :
    ∀ i, InBook b i → i < c := by
  intro i hi
  rcases hi with ⟨kl, hkl, o, ho, hid⟩ | ⟨kl, hkl, o, ho, hid⟩
  · exact hid ▸ hbid kl hkl o ho
  · exact hid ▸ hask kl hkl o ho

end Matcher

namespace Matcher

/-- In an id-sorted queue, earlier positions hold strictly smaller ids. -/
theorem idsSorted_get_lt {q : List Order} (hs : idsSorted q) {i j : Nat}
    (hij : i < j) (hjq : j < q.length) :
    (q.get ⟨i, Nat.lt_trans hij hjq⟩).id < (q.get ⟨j, hjq⟩).id := by
  unfold idsSorted at hs
  rw [List.pairwise_iff_getElem] at hs
  have := hs i j (by simpa using Nat.lt_trans hij hjq) (by simpa using hjq) hij
  simpa using this

/-- In an id-sorted queue, ids identify orders uniquely. -/
theorem idsSorted_id_inj {q : List Order} (hs : idsSorted q) {a b : Order}
    (ha : a ∈ q) (hb : b ∈ q) (hid : a.id = b.id) : a = b := by
  obtain ⟨i, hi, hia⟩ := List.mem_iff_getElem.mp ha
  obtain ⟨j, hj, hjb⟩ := List.mem_iff_getElem.mp hb
  rcases Nat.lt_trichotomy i j with hlt | heq | hgt
  · have := idsSorted_get_lt hs hlt hj
    simp only [List.get_eq_getElem, hia, hjb] at this
    omega
  · subst heq
    rw [← hia, ← hjb]
  · have := idsSorted_get_lt hs hgt hi
    simp only [List.get_eq_getElem, hia, hjb] at this
    omega

/-- Soundness of the fueled binary search: a returned index holds an order
with the searched id. -/
theorem binSearchAux_sound :
    ∀ (fuel : Nat) (q : List Order) (key lo hi i : Nat),
      binSearchAux q key fuel lo hi = some i →
      ∃ o, q.get? i = some o ∧ o.id = key := by
  intro fuel
  induction fuel with
  | zero =>
    intro q key lo hi i h
    simp [binSearchAux] at h
  | succ fuel ih =>
    intro q key lo hi i h
    simp only [binSearchAux] at h
    split at h
    · split at h
      · exact absurd h (by simp)
      · rename_i o ho
        split at h
        · rename_i hkey
          simp only [Option.some.injEq] at h
          subst h
          exact ⟨o, ho, hkey⟩
        · split at h
          · exact ih q key (((lo + hi) / 2) + 1) hi i h
          · exact ih q key lo ((lo + hi) / 2) i h
    · exact absurd h (by simp)

/-- Completeness of the fueled binary search on an id-sorted queue: if some
index in [lo, hi) holds the searched id and the fuel covers the interval
width, the search succeeds. -/
theorem binSearchAux_complete :
    ∀ (fuel : Nat) (q : List Order) (key lo hi : Nat),
      idsSorted q → hi ≤ q.length → hi - lo ≤ fuel →
      ∀ (j : Nat), lo ≤ j → j < hi → ∀ o : Order,
        q.get? j = some o → o.id = key →
        (binSearchAux q key fuel lo hi).isSome = true := by
  intro fuel
  induction fuel with
  | zero =>
    intro q key lo hi hs hlen hfuel j hj1 hj2 o ho hid
    omega
  | succ fuel ih =>
    intro q key lo hi hs hlen hfuel j hj1 hj2 o ho hid
    have hlohi : lo < hi := Nat.lt_of_le_of_lt hj1 hj2
    have hmidlt : (lo + hi) / 2 < q.length := by omega
    have hjlt : j < q.length := by omega
    have hom : q.get? ((lo + hi) / 2) = some (q.get ⟨(lo + hi) / 2, hmidlt⟩) :=
      List.get?_eq_some.mpr ⟨hmidlt, rfl⟩
    have hoj : q.get ⟨j, hjlt⟩ = o := by
      obtain ⟨h1, h2⟩ := List.get?_eq_some.mp ho
      exact h2
    have hjo_id : ∀ h1 : j = (lo + hi) / 2,
        (q.get ⟨(lo + hi) / 2, hmidlt⟩).id = key := by
      intro h1
      subst h1
      rw [hoj, hid]
    simp only [binSearchAux]
    rw [if_pos hlohi]
    simp only [hom]
    by_cases hk : (q.get ⟨(lo + hi) / 2, hmidlt⟩).id = key
    · rw [if_pos hk]
      simp
    · rw [if_neg hk]
      by_cases hlt : (q.get ⟨(lo + hi) / 2, hmidlt⟩).id < key
      · rw [if_pos hlt]
        have hmj : (lo + hi) / 2 < j := by
          rcases Nat.lt_trichotomy j ((lo + hi) / 2) with h1 | h1 | h1
          · have := idsSorted_get_lt hs h1 hmidlt
            rw [hoj] at this
            omega
          · exact absurd (hjo_id h1) hk
          · exact h1
        exact ih q key (((lo + hi) / 2) + 1) hi hs hlen (by omega) j (by omega)
          hj2 o ho hid
      · rw [if_neg hlt]
        have hmj : j < (lo + hi) / 2 := by
          rcases Nat.lt_trichotomy j ((lo + hi) / 2) with h1 | h1 | h1
          · exact h1
          · exact absurd (hjo_id h1) hk
          · exfalso
            have := idsSorted_get_lt hs h1 hjlt
            rw [hoj] at this
            omega
        exact ih q key lo ((lo + hi) / 2) hs (by omega) (by omega) j hj1 hmj
          o ho hid

/-- Binary search by id over a sorted queue succeeds exactly when an order
with the id is present. -/
theorem binSearchById_isSome_iff {q : List Order} (hs : idsSorted q) (key : Nat) :
    (binSearchById q key).isSome = true ↔ ∃ o ∈ q, o.id = key := by
  constructor
  · intro h
    rcases hfind : binSearchById q key with _ | i
    · rw [hfind] at h
      simp at h
    · obtain ⟨o, ho, hid⟩ := binSearchAux_sound _ q key 0 q.length i hfind
      have : o ∈ q := by
        rw [List.get?_eq_some] at ho
        obtain ⟨h1, h2⟩ := ho
        exact h2 ▸ List.get_mem q _ _
      exact ⟨o, this, hid⟩
  · intro ⟨o, ho, hid⟩
    obtain ⟨j, hj, hjo⟩ := List.mem_iff_getElem.mp ho
    exact binSearchAux_complete (q.length + 1) q key 0 q.length hs (le_refl _)
      (by omega) j (Nat.zero_le _) hj o
      (List.get?_eq_some.mpr ⟨hj, hjo⟩) hid

end Matcher

namespace Matcher

/-- A map has no greatest key exactly when it is empty. -/
theorem maxKey?_eq_none_iff {m : List (Nat × PriceLevel)} :
    maxKey? m = none ↔ m = [] := by
  cases m with
  | nil => simp [maxKey?]
  | cons p rest => simp [maxKey?]

/-- A map has no least key exactly when it is empty. -/
theorem minKey?_eq_none_iff {m : List (Nat × PriceLevel)} :
    minKey? m = none ↔ m = [] := by
  cases m with
  | nil => simp [minKey?]
  | cons p rest => simp [minKey?]

/-- Replacing a value in place keeps the key list. -/
theorem keysOf_setLevel (m : List (Nat × PriceLevel)) (k : Nat) (v : PriceLevel) :
    keysOf (setLevel m k v) = keysOf m := by
  induction m with
  | nil => rfl
  | cons p rest ih =>
    obtain ⟨k1, v1⟩ := p
    simp only [setLevel]
    split
    · simp [keysOf]
    · simp only [keysOf, List.map_cons] at ih ⊢
      rw [ih]

/-- Replacing a value in place keeps the greatest key. -/
theorem maxKey?_setLevel (m : List (Nat × PriceLevel)) (k : Nat) (v : PriceLevel) :
    maxKey? (setLevel m k v) = maxKey? m := by
  induction m with
  | nil => rfl
  | cons p rest ih =>
    obtain ⟨k1, v1⟩ := p
    simp only [setLevel]
    split
    · rename_i heq
      simp [maxKey?]
    · simp only [maxKey?]
      rw [ih]

/-- Replacing a value in place keeps the least key. -/
theorem minKey?_setLevel (m : List (Nat × PriceLevel)) (k : Nat) (v : PriceLevel) :
    minKey? (setLevel m k v) = minKey? m := by
  induction m with
  | nil => rfl
  | cons p rest ih =>
    obtain ⟨k1, v1⟩ := p
    simp only [setLevel]
    split
    · simp [minKey?]
    · simp only [minKey?]
      rw [ih]

/-- Erasing a key keeps a sublist of the keys. -/
theorem keysOf_eraseLevel_sublist (m : List (Nat × PriceLevel)) (k : Nat) :
    (keysOf (eraseLevel m k)).Sublist (keysOf m) := by
  induction m with
  | nil => simp [eraseLevel, keysOf]
  | cons p rest ih =>
    obtain ⟨k1, v1⟩ := p
    simp only [eraseLevel]
    split
    · exact (List.sublist_cons_self _ _)
    · simp only [keysOf, List.map_cons] at ih ⊢
      exact List.Sublist.cons₂ _ ih

/-- Erasing a key from a map with unique keys makes the key unfindable. -/
theorem lookup_eraseLevel_self {m : List (Nat × PriceLevel)} {k : Nat}
    (hnd : (keysOf m).Nodup) : lookupLevel (eraseLevel m k) k = none := by
  induction m with
  | nil => rfl
  | cons p rest ih =>
    obtain ⟨k1, v1⟩ := p
    simp only [keysOf, List.map_cons, List.nodup_cons] at hnd
    obtain ⟨hk1, hrest⟩ := hnd
    simp only [eraseLevel]
    split
    · rename_i heq
      subst heq
      cases hl : lookupLevel rest k1 with
      | none => rfl
      | some v =>
        exact absurd (by
          have := lookupLevel_mem hl
          exact List.mem_map.mpr ⟨(k1, v), this, rfl⟩) hk1
    · rename_i hne
      simp only [lookupLevel]
      rw [if_neg hne]
      exact ih hrest

/-- Looking up the key just replaced finds the new value. -/
theorem lookup_setLevel_self {m : List (Nat × PriceLevel)} {k : Nat}
    {lvl v : PriceLevel} (h : lookupLevel m k = some lvl) :
    lookupLevel (setLevel m k v) k = some v := by
  induction m with
  | nil => simp [lookupLevel] at h
  | cons p rest ih =>
    obtain ⟨k1, v1⟩ := p
    simp only [lookupLevel, setLevel] at h ⊢
    split at h
    · rename_i heq
      rw [if_pos heq]
      simp [lookupLevel, heq]
    · rename_i hne
      rw [if_neg hne]
      simp only [lookupLevel]
      rw [if_neg hne]
      exact ih h

/-- Membership in an upserted unique-key map: the fresh binding or an
untouched one under a different key. -/
theorem mem_upsertLevel {m : List (Nat × PriceLevel)} {k : Nat} {v : PriceLevel}
    {kl : Nat × PriceLevel} (hnd : (keysOf m).Nodup)
    (h : kl ∈ upsertLevel m k v) : kl = (k, v) ∨ (kl ∈ m ∧ kl.1 ≠ k) := by
  induction m with
  | nil =>
    simp only [upsertLevel, List.mem_singleton] at h
    exact Or.inl h
  | cons p rest ih =>
    obtain ⟨k1, v1⟩ := p
    simp only [keysOf, List.map_cons, List.nodup_cons] at hnd
    obtain ⟨hk1, hrest⟩ := hnd
    simp only [upsertLevel] at h
    split at h
    · rename_i heq
      subst heq
      rcases List.mem_cons.mp h with h1 | h1
      · exact Or.inl h1
      · refine Or.inr ⟨List.mem_cons_of_mem _ h1, ?_⟩
        intro hkl
        exact hk1 (List.mem_map.mpr ⟨kl, h1, hkl⟩)
    · rename_i hne
      rcases List.mem_cons.mp h with h1 | h1
      · subst h1
        exact Or.inr ⟨List.mem_cons_self _ _, hne⟩
      · rcases ih hrest h1 with h2 | h2
        · exact Or.inl h2
        · exact Or.inr ⟨List.mem_cons_of_mem _ h2.1, h2.2⟩

/-- Upserting preserves key uniqueness. -/
theorem keysOf_upsertLevel_nodup {m : List (Nat × PriceLevel)} {k : Nat}
    {v : PriceLevel} (hnd : (keysOf m).Nodup) :
    (keysOf (upsertLevel m k v)).Nodup := by
  induction m with
  | nil => simp [upsertLevel, keysOf]
  | cons p rest ih =>
    obtain ⟨k1, v1⟩ := p
    simp only [keysOf, List.map_cons, List.nodup_cons] at hnd
    obtain ⟨hk1, hrest⟩ := hnd
    simp only [upsertLevel]
    split
    · simp only [keysOf, List.map_cons, List.nodup_cons]
      exact ⟨hk1, hrest⟩
    · rename_i hne
      simp only [keysOf, List.map_cons, List.nodup_cons]
      refine ⟨?_, ih hrest⟩
      intro hmem
      obtain ⟨⟨k2, v2⟩, hk2, hk2e⟩ := List.mem_map.mp hmem
      rcases mem_upsertLevel hrest hk2 with h2 | h2
      · rw [h2] at hk2e
        simp only at hk2e
        exact hne hk2e.symm
      · exact hk1 (List.mem_map.mpr ⟨(k2, v2), h2.1, hk2e⟩)

/-- A counter bound on a side's order ids is monotone in the bound. -/
theorem sideWF_mono {s : OrderbookSide} {tag : OrderSide} {c c1 : Nat}
    {hib : Bool} (h : sideWF s tag c hib) (hc : c ≤ c1) : sideWF s tag c1 hib := by
  obtain ⟨h1, h2, h3, h4⟩ := h
  refine ⟨h1, h2, h3, fun kl hkl => ⟨(h4 kl hkl).1, fun o ho => ?_⟩⟩
  obtain ⟨hside, hlt⟩ := (h4 kl hkl).2 o ho
  exact ⟨hside, Nat.lt_of_lt_of_le hlt hc⟩

/-- update_side_ticks always re-establishes the cached-extrema invariant. -/
theorem sideTicksOk_updateSideTicks (s : OrderbookSide) :
    sideTicksOk (updateSideTicks s) := by
  unfold sideTicksOk updateSideTicks
  split
  · rename_i hemp
    rw [hemp]
    cases h : s.higher_is_better <;> simp [maxKey?, minKey?]
  · cases h : s.higher_is_better <;> simp [h]

/-- update_side_ticks keeps the polarity flag. -/
theorem updateSideTicks_hib (s : OrderbookSide) :
    (updateSideTicks s).higher_is_better = s.higher_is_better := by
  unfold updateSideTicks
  split
  · rfl
  · split <;> rfl

end Matcher

namespace Matcher

/-- The inner level loop keeps the queue strictly id-sorted: it only drops
front orders or mutates the front's filled quantity in place. -/
theorem runLevel_queue_pairwise :
    ∀ (q : List Order) (ts : Nat) (taker : Order) (tc tq : Nat) (r : LevelRun),
      runLevel ts taker tc q tq = some r → idsSorted q → idsSorted r.queue := by
  intro q
  induction q with
  | nil =>
    intro ts taker tc tq r h hs
    simp only [runLevel, Option.some.injEq] at h
    subst h
    exact hs
  | cons o rest ih =>
    intro ts taker tc tq r h hs
    have hs_tail : idsSorted rest := by
      unfold idsSorted at hs ⊢
      simp only [List.map_cons, List.pairwise_cons] at hs
      exact hs.2
    simp only [runLevel] at h
    split at h
    · exact ih ts taker tc tq r h hs_tail
    · split at h
      · exact absurd h (by simp)
      · split at h
        · split at h
          · simp only [Option.some.injEq] at h
            subst h
            exact hs
          · exact absurd h (by simp)
        · split at h
          · simp only [Option.some.injEq] at h
            subst h
            exact hs_tail
          · split at h
            · exact absurd h (by simp)
            · rename_i r2 heq
              simp only [Option.some.injEq] at h
              subst h
              exact ih ts _ (tc + 1) _ r2 heq hs_tail

/-- One tick of the matching loop preserves the per-level invariants of the
side being consumed. -/
theorem runTick_wf {ts t : Nat} {st st' : MatchState} {brk : Bool}
    {tag : OrderSide} {c : Nat}
    (h : runTick ts t st = some (st', brk))
    (hnd : (keysOf st.levels).Nodup)
    (hall : ∀ kl ∈ st.levels, idsSorted kl.2.orders ∧
      ∀ o ∈ kl.2.orders, o.side = tag ∧ o.id < c) :
    (keysOf st'.levels).Nodup ∧
    ∀ kl ∈ st'.levels, idsSorted kl.2.orders ∧
      ∀ o ∈ kl.2.orders, o.side = tag ∧ o.id < c := by
  unfold runTick at h
  split at h
  · simp only [Option.some.injEq, Prod.mk.injEq] at h
    obtain ⟨h1, -⟩ := h
    subst h1
    exact ⟨hnd, hall⟩
  · rename_i lvl hlook
    split at h
    · exact absurd h (by simp)
    · rename_i r hrun
      simp only [Option.some.injEq, Prod.mk.injEq] at h
      obtain ⟨h1, -⟩ := h
      subst h1
      simp only
      split
      · refine ⟨(keysOf_eraseLevel_sublist st.levels t).nodup hnd, ?_⟩
        intro kl hkl
        exact hall kl (mem_eraseLevel hkl)
      · rw [keysOf_setLevel]
        refine ⟨hnd, ?_⟩
        intro kl hkl
        rcases mem_setLevel hkl with h2 | h2
        · exact hall kl h2
        · subst h2
          obtain ⟨hlvl_sorted, hlvl_all⟩ := hall (t, lvl) (lookupLevel_mem hlook)
          refine ⟨runLevel_queue_pairwise lvl.orders ts st.taker st.trade_ctr
            lvl.total_quantity r hrun hlvl_sorted, ?_⟩
          intro o ho
          obtain ⟨w, hw, hwid, hwside⟩ := runLevel_queue_mem lvl.orders ts
            st.taker st.trade_ctr lvl.total_quantity r hrun o ho
          obtain ⟨hside, hlt⟩ := hlvl_all w hw
          exact ⟨hwside ▸ hside, hwid ▸ hlt⟩

/-- The whole tick sweep preserves the per-level invariants. -/
theorem runTicks_wf :
    ∀ (ticks : List Nat) (ts : Nat) (st st' : MatchState)
      {tag : OrderSide} {c : Nat},
      runTicks ts ticks st = some st' →
      (keysOf st.levels).Nodup →
      (∀ kl ∈ st.levels, idsSorted kl.2.orders ∧
        ∀ o ∈ kl.2.orders, o.side = tag ∧ o.id < c) →
      (keysOf st'.levels).Nodup ∧
      ∀ kl ∈ st'.levels, idsSorted kl.2.orders ∧
        ∀ o ∈ kl.2.orders, o.side = tag ∧ o.id < c := by
  intro ticks
  induction ticks with
  | nil =>
    intro ts st st' tag c h hnd hall
    simp only [runTicks, Option.some.injEq] at h
    subst h
    exact ⟨hnd, hall⟩
  | cons t rest ih =>
    intro ts st st' tag c h hnd hall
    simp only [runTicks] at h
    split at h
    · exact absurd h (by simp)
    · rename_i st1 heq
      obtain ⟨hnd1, hall1⟩ := runTick_wf heq hnd hall
      simp only [Option.some.injEq] at h
      subst h
      exact ⟨hnd1, hall1⟩
    · rename_i st1 heq
      obtain ⟨hnd1, hall1⟩ := runTick_wf heq hnd hall
      exact ih ts st1 st' h hnd1 hall1

/-- Matching preserves well-formedness of both sides (for any id bound). -/
theorem match_order_wf {b : OrderBook} {order : Order} {ts : Nat}
    {b' : OrderBook} {order' : Order} {trades : List Trade} {c : Nat}
    (h : b.match_order order ts = some (b', order', trades))
    (hbid : sideWF b.bid_side .Bid c true)
    (hask : sideWF b.ask_side .Ask c false) :
    sideWF b'.bid_side .Bid c true ∧ sideWF b'.ask_side .Ask c false := by
  unfold OrderBook.match_order at h
  simp only at h
  split at h
  · simp only [Option.some.injEq, Prod.mk.injEq] at h
    obtain ⟨h1, -, -⟩ := h
    subst h1
    exact ⟨hbid, hask⟩
  · split at h
    · exact absurd h (by simp)
    · rename_i st hrt
      simp only [Option.some.injEq, Prod.mk.injEq] at h
      obtain ⟨h1, -, -⟩ := h
      subst h1
      cases hside : order.side with
      | Bid =>
        rw [hside] at hrt
        obtain ⟨hnd, hall⟩ := runTicks_wf _ ts _ st hrt hask.2.2.1
          (fun kl hkl => (hask.2.2.2 kl hkl))
        constructor
        · simpa [OrderBook.update_price_ticks_after_match,
            OrderBook.update_side_ticks, OrderBook.putSide,
            OrderBook.getSide, hside] using hbid
        · simp only [OrderBook.update_price_ticks_after_match,
            OrderBook.update_side_ticks, OrderBook.putSide,
            OrderBook.getSide, hside]
          refine ⟨?_, sideTicksOk_updateSideTicks _, ?_, ?_⟩
          · rw [updateSideTicks_hib]
            exact hask.1
          · rw [updateSideTicks_levels]
            exact hnd
          · rw [updateSideTicks_levels]
            exact hall
      | Ask =>
        rw [hside] at hrt
        obtain ⟨hnd, hall⟩ := runTicks_wf _ ts _ st hrt hbid.2.2.1
          (fun kl hkl => (hbid.2.2.2 kl hkl))
        constructor
        · simp only [OrderBook.update_price_ticks_after_match,
            OrderBook.update_side_ticks, OrderBook.putSide,
            OrderBook.getSide, hside]
          refine ⟨?_, sideTicksOk_updateSideTicks _, ?_, ?_⟩
          · rw [updateSideTicks_hib]
            exact hbid.1
          · rw [updateSideTicks_levels]
            exact hnd
          · rw [updateSideTicks_levels]
            exact hall
        · simpa [OrderBook.update_price_ticks_after_match,
            OrderBook.update_side_ticks, OrderBook.putSide,
            OrderBook.getSide, hside] using hask

end Matcher

namespace Matcher

/-- Setting a position to an order with the same id keeps the id list. -/
theorem map_id_set {q : List Order} {i : Nat} {o' : Order}
    (hi : i < q.length) (hid : o'.id = (q.get ⟨i, hi⟩).id) :
    (q.set i o').map Order.id = q.map Order.id := by
  apply List.ext_getElem
  · simp
  · intro j h1 h2
    simp only [List.getElem_map, List.getElem_set]
    split
    · rename_i he
      subst he
      rw [hid]
      rfl
    · rfl

/-- Appending a fresh resting order preserves both sides' well-formedness,
provided its id dominates every id already resting on its own side and stays
below the bound. -/
theorem add_limit_order_wf {b : OrderBook} {o : Order} {c : Nat}
    (hbid : sideWF b.bid_side .Bid c true)
    (hask : sideWF b.ask_side .Ask c false)
    (hlt : ∀ kl ∈ (b.getSide o.side).levels, ∀ x ∈ kl.2.orders, x.id < o.id)
    (hoc : o.id < c) :
    sideWF (b.add_limit_order o).bid_side .Bid c true ∧
    sideWF (b.add_limit_order o).ask_side .Ask c false := by
  have hmain : ∀ (s : OrderbookSide) (tag : OrderSide) (hib : Bool),
      sideWF s tag c hib → o.side = tag →
      (∀ kl ∈ s.levels, ∀ x ∈ kl.2.orders, x.id < o.id) →
      (let lvl := (lookupLevel s.levels o.price_tick).getD ⟨[], 0⟩
       let lvl' : PriceLevel :=
        { orders := lvl.orders ++ [o],
          total_quantity := lvl.total_quantity + (o.quantity - o.quantity_filled) }
       let levels' := upsertLevel s.levels o.price_tick lvl'
       sideWF (if s.higher_is_better then
          { s with levels := levels', best_tick := maxKey? levels',
                   worst_tick := minKey? levels' }
        else
          { s with levels := levels', best_tick := minKey? levels',
                   worst_tick := maxKey? levels' }) tag c hib) := by
    intro s tag hib hs htag hslt
    obtain ⟨hs1, hs2, hs3, hs4⟩ := hs
    have hlvl : ∀ kl ∈ upsertLevel s.levels o.price_tick
        { orders := ((lookupLevel s.levels o.price_tick).getD ⟨[], 0⟩).orders ++ [o],
          total_quantity := ((lookupLevel s.levels o.price_tick).getD ⟨[], 0⟩).total_quantity +
            (o.quantity - o.quantity_filled) },
        idsSorted kl.2.orders ∧ ∀ x ∈ kl.2.orders, x.side = tag ∧ x.id < c := by
      intro kl hkl
      rcases mem_upsertLevel hs3 hkl with h1 | h1
      · subst h1
        have hqs : idsSorted ((lookupLevel s.levels o.price_tick).getD ⟨[], 0⟩).orders ∧
            (∀ x ∈ ((lookupLevel s.levels o.price_tick).getD ⟨[], 0⟩).orders,
              x.side = tag ∧ x.id < c) ∧
            (∀ x ∈ ((lookupLevel s.levels o.price_tick).getD ⟨[], 0⟩).orders,
              x.id < o.id) := by
          cases hl : lookupLevel s.levels o.price_tick with
          | none => simp [idsSorted]
          | some lvl0 =>
            have hmem := lookupLevel_mem hl
            exact ⟨(hs4 _ hmem).1, (hs4 _ hmem).2, hslt _ hmem⟩
        obtain ⟨hq1, hq2, hq3⟩ := hqs
        constructor
        · unfold idsSorted
          rw [List.map_append, List.pairwise_append]
          refine ⟨hq1, by simp, ?_⟩
          intro a ha bb hb
          simp only [List.map_singleton, List.mem_singleton] at hb
          subst hb
          obtain ⟨x, hx, hxa⟩ := List.mem_map.mp ha
          exact hxa ▸ hq3 x hx
        · intro x hx
          rcases List.mem_append.mp hx with h2 | h2
          · exact hq2 x h2
          · rw [List.mem_singleton.mp h2]
            exact ⟨htag, hoc⟩
      · exact hs4 kl h1.1
    refine ⟨?_, ?_, ?_, ?_⟩
    · split <;> exact hs1
    · unfold sideTicksOk
      split
      · rename_i hhib
        simp only [hhib ▸ hs1 ▸ hhib]
        simp [hs1 ▸ hhib, hhib]
      · rename_i hhib
        simp [hhib]
    · split <;> exact keysOf_upsertLevel_nodup hs3
    · split <;> exact hlvl
  unfold OrderBook.add_limit_order
  cases hside : o.side with
  | Bid =>
    simp only [OrderBook.getSide, OrderBook.putSide, hside]
    constructor
    · have := hmain b.bid_side .Bid true hbid hside (by
        simpa [OrderBook.getSide, hside] using hlt)
      simpa using this
    · exact hask
  | Ask =>
    simp only [OrderBook.getSide, OrderBook.putSide, hside]
    constructor
    · exact hbid
    · have := hmain b.ask_side .Ask false hask hside (by
        simpa [OrderBook.getSide, hside] using hlt)
      simpa using this

end Matcher

namespace Matcher

/-- The inner level loop only mutates the taker's filled quantity. -/
theorem runLevel_taker_fields :
    ∀ (q : List Order) (ts : Nat) (taker : Order) (tc tq : Nat) (r : LevelRun),
      runLevel ts taker tc q tq = some r →
      r.taker.id = taker.id ∧ r.taker.side = taker.side := by
  intro q
  induction q with
  | nil =>
    intro ts taker tc tq r h
    simp only [runLevel, Option.some.injEq] at h
    subst h
    exact ⟨rfl, rfl⟩
  | cons o rest ih =>
    intro ts taker tc tq r h
    simp only [runLevel] at h
    split at h
    · exact ih ts taker tc tq r h
    · split at h
      · exact absurd h (by simp)
      · split at h
        · split at h
          · simp only [Option.some.injEq] at h
            subst h
            exact ⟨rfl, rfl⟩
          · exact absurd h (by simp)
        · split at h
          · simp only [Option.some.injEq] at h
            subst h
            exact ⟨rfl, rfl⟩
          · split at h
            · exact absurd h (by simp)
            · rename_i r2 heq
              simp only [Option.some.injEq] at h
              subst h
              have := ih ts _ (tc + 1) _ r2 heq
              exact ⟨this.1, this.2⟩

/-- The tick sweep only mutates the taker's filled quantity. -/
theorem runTicks_taker_fields :
    ∀ (ticks : List Nat) (ts : Nat) (st st' : MatchState),
      runTicks ts ticks st = some st' →
      st'.taker.id = st.taker.id ∧ st'.taker.side = st.taker.side := by
  intro ticks
  induction ticks with
  | nil =>
    intro ts st st' h
    simp only [runTicks, Option.some.injEq] at h
    subst h
    exact ⟨rfl, rfl⟩
  | cons t rest ih =>
    intro ts st st' h
    have hone : ∀ (st1 : MatchState) (brk : Bool), runTick ts t st = some (st1, brk) →
        st1.taker.id = st.taker.id ∧ st1.taker.side = st.taker.side := by
      intro st1 brk h1
      unfold runTick at h1
      split at h1
      · simp only [Option.some.injEq, Prod.mk.injEq] at h1
        obtain ⟨h2, -⟩ := h1
        subst h2
        exact ⟨rfl, rfl⟩
      · rename_i lvl hlook
        split at h1
        · exact absurd h1 (by simp)
        · rename_i r hrun
          simp only [Option.some.injEq, Prod.mk.injEq] at h1
          obtain ⟨h2, -⟩ := h1
          subst h2
          exact runLevel_taker_fields lvl.orders ts st.taker st.trade_ctr
            lvl.total_quantity r hrun
    simp only [runTicks] at h
    split at h
    · exact absurd h (by simp)
    · rename_i st1 heq
      simp only [Option.some.injEq] at h
      subst h
      exact hone st1 true heq
    · rename_i st1 heq
      obtain ⟨h1, h2⟩ := hone st1 false heq
      obtain ⟨h3, h4⟩ := ih ts st1 st' h
      exact ⟨h3.trans h1, h4.trans h2⟩

/-- Matching only mutates the taker's filled quantity. -/
theorem match_order_taker {b : OrderBook} {order : Order} {ts : Nat}
    {b' : OrderBook} {order' : Order} {trades : List Trade}
    (h : b.match_order order ts = some (b', order', trades)) :
    order'.id = order.id ∧ order'.side = order.side := by
  unfold OrderBook.match_order at h
  simp only at h
  split at h
  · simp only [Option.some.injEq, Prod.mk.injEq] at h
    obtain ⟨-, h2, -⟩ := h
    subst h2
    exact ⟨rfl, rfl⟩
  · split at h
    · exact absurd h (by simp)
    · rename_i st hrt
      simp only [Option.some.injEq, Prod.mk.injEq] at h
      obtain ⟨-, h2, -⟩ := h
      subst h2
      exact runTicks_taker_fields _ ts _ st hrt

/-- add_limit_order does not touch the id counters. -/
theorem add_limit_order_counters (b : OrderBook) (o : Order) :
    (b.add_limit_order o).order_id_counter = b.order_id_counter := by
  unfold OrderBook.add_limit_order OrderBook.putSide OrderBook.getSide
  cases o.side <;> rfl

/-- A non-panicking add_order call preserves book well-formedness. -/
theorem add_order_wf {b : OrderBook} {uid pt q : Nat} {side : OrderSide}
    {tif : TimeInForce} {ts : Nat} {b' : OrderBook} {r : Option Order}
    {t : List Trade} (h : b.add_order uid pt q side tif ts = some (b', r, t))
    (hwf : WF b) : WF b' := by
  classical
  obtain ⟨hbid, hask⟩ := hwf
  unfold Matcher.OrderBook.add_order at h
  simp only at h
  split at h
  · simp only [Option.some.injEq, Prod.mk.injEq] at h
    obtain ⟨h1, -, -⟩ := h
    subst h1
    exact ⟨sideWF_mono hbid (Nat.le_succ _), sideWF_mono hask (Nat.le_succ _)⟩
  · split at h
    · simp only [Option.some.injEq, Prod.mk.injEq] at h
      obtain ⟨h1, -, -⟩ := h
      subst h1
      exact ⟨sideWF_mono hbid (Nat.le_succ _), sideWF_mono hask (Nat.le_succ _)⟩
    · split at h
      · exact absurd h (by simp)
      · rename_i b2 order2 trades2 hbest
        have hfacts : sideWF b2.bid_side .Bid b.order_id_counter true ∧
            sideWF b2.ask_side .Ask b.order_id_counter false ∧
            b2.order_id_counter = b.order_id_counter + 1 ∧
            order2.id = b.order_id_counter ∧ order2.side = side := by
          rcases hb : ({ b with order_id_counter := b.order_id_counter + 1 } :
              Matcher.OrderBook).get_opposite_best_tick side with _ | v
          · rw [hb] at hbest
            simp only [Option.some.injEq, Prod.mk.injEq] at hbest
            obtain ⟨h1, h2, -⟩ := hbest
            subst h1
            subst h2
            exact ⟨hbid, hask, rfl, rfl, rfl⟩
          · rw [hb] at hbest
            obtain ⟨hbid2, hask2⟩ := match_order_wf hbest hbid hask
            obtain ⟨-, -, hoctr, -, -⟩ := match_order_spec hbest
            obtain ⟨hid2, hside2⟩ := match_order_taker hbest
            exact ⟨hbid2, hask2, hoctr, hid2, hside2⟩
        obtain ⟨hbid2, hask2, hoctr2, hid2, hside2⟩ := hfacts
        have hWF2 : WF b2 := by
          unfold WF
          rw [hoctr2]
          exact ⟨sideWF_mono hbid2 (Nat.le_succ _), sideWF_mono hask2 (Nat.le_succ _)⟩
        have hWFadd : WF (b2.add_limit_order order2) := by
          have hlt : ∀ kl ∈ (b2.getSide order2.side).levels,
              ∀ x ∈ kl.2.orders, x.id < order2.id := by
            rw [hid2]
            cases hs2 : order2.side with
            | Bid =>
              simp only [OrderBook.getSide]
              intro kl hkl x hx
              exact ((hbid2.2.2.2 kl hkl).2 x hx).2
            | Ask =>
              simp only [OrderBook.getSide]
              intro kl hkl x hx
              exact ((hask2.2.2.2 kl hkl).2 x hx).2
          have := add_limit_order_wf (sideWF_mono hbid2 (Nat.le_succ _))
            (sideWF_mono hask2 (Nat.le_succ _)) hlt
            (by rw [hid2]; exact Nat.lt_succ_self _)
          unfold WF
          rw [add_limit_order_counters, hoctr2]
          exact this
        have hWFb3 : ∀ (bk : OrderBook),
            (bk = b2.add_limit_order order2 ∨ bk = b2) → WF bk := by
          intro bk hbk
          rcases hbk with h1 | h1
          · exact h1 ▸ hWFadd
          · exact h1 ▸ hWF2
        split at h
        · split at h
          · exact absurd h (by simp)
          · simp only [Option.some.injEq, Prod.mk.injEq] at h
            obtain ⟨h1, -, -⟩ := h
            subst h1
            apply hWFb3
            split
            · exact Or.inl rfl
            · exact Or.inr rfl
          · split at h
            · simp only [Option.some.injEq, Prod.mk.injEq] at h
              obtain ⟨h1, -, -⟩ := h
              subst h1
              apply hWFb3
              split
              · exact Or.inl rfl
              · exact Or.inr rfl
            · split at h
              · simp only [Option.some.injEq, Prod.mk.injEq] at h
                obtain ⟨h1, -, -⟩ := h
                subst h1
                apply hWFb3
                split
                · exact Or.inl rfl
                · exact Or.inr rfl
              · simp only [Option.some.injEq, Prod.mk.injEq] at h
                obtain ⟨h1, -, -⟩ := h
                subst h1
                apply hWFb3
                split
                · exact Or.inl rfl
                · exact Or.inr rfl
        · simp only [Option.some.injEq, Prod.mk.injEq] at h
          obtain ⟨h1, -, -⟩ := h
          subst h1
          apply hWFb3
          split
          · exact Or.inl rfl
          · exact Or.inr rfl

end Matcher

namespace Matcher

/-- Cancelling in place (marking the found order cancelled and shrinking the
level's total) preserves a side's well-formedness when the level is kept. -/
theorem cancel_side_wf_set {s : OrderbookSide} {tag : OrderSide} {c : Nat}
    {hib : Bool} (hs : sideWF s tag c hib)
    {ptk : Nat} {level : PriceLevel} (hlook : lookupLevel s.levels ptk = some level)
    {index : Nat} {o : Order} (hget : level.orders.get? index = some o)
    {tq : Nat} :
    sideWF { s with
      levels := (setLevel s.levels ptk
        ⟨level.orders.set index { o with is_cancelled := true }, tq⟩) } tag c hib := by
  have hido : ({ o with is_cancelled := true } : Order).id = o.id := rfl
  have hsideo : ({ o with is_cancelled := true } : Order).side = o.side := rfl
  obtain ⟨hs1, hs2, hs3, hs4⟩ := hs
  obtain ⟨hidx, hgeto⟩ := List.get?_eq_some.mp hget
  have hlevmem := lookupLevel_mem hlook
  refine ⟨hs1, ?_, ?_, ?_⟩
  · obtain ⟨ht1, ht2⟩ := hs2
    exact ⟨by simp only [maxKey?_setLevel, minKey?_setLevel]; exact ht1,
      by simp only [maxKey?_setLevel, minKey?_setLevel]; exact ht2⟩
  · simp only [keysOf_setLevel]
    exact hs3
  · intro kl hkl
    simp only at hkl
    rcases mem_setLevel hkl with h1 | h1
    · exact hs4 kl h1
    · subst h1
      obtain ⟨hsorted, hall⟩ := hs4 (ptk, level) hlevmem
      constructor
      · unfold idsSorted at hsorted ⊢
        rw [map_id_set hidx (by rw [hido, hgeto])]
        exact hsorted
      · intro x hx
        rcases List.mem_or_eq_of_mem_set hx with h2 | h2
        · exact hall x h2
        · subst h2
          have ho_mem : o ∈ level.orders := hgeto ▸ List.get_mem _ _ _
          obtain ⟨ha, hb⟩ := hall o ho_mem
          exact ⟨hsideo ▸ ha, hido ▸ hb⟩

/-- Erasing a level preserves a side's per-level invariants; the cached ticks
are re-established by the update that follows. -/
theorem cancel_side_wf_erase {s : OrderbookSide} {tag : OrderSide} {c : Nat}
    {hib : Bool} (hs : sideWF s tag c hib) {ptk : Nat} :
    sideWF (updateSideTicks { s with levels := eraseLevel s.levels ptk })
      tag c hib := by
  obtain ⟨hs1, hs2, hs3, hs4⟩ := hs
  refine ⟨?_, sideTicksOk_updateSideTicks _, ?_, ?_⟩
  · rw [updateSideTicks_hib]
    exact hs1
  · rw [updateSideTicks_levels]
    exact (keysOf_eraseLevel_sublist s.levels ptk).nodup hs3
  · rw [updateSideTicks_levels]
    intro kl hkl
    exact hs4 kl (mem_eraseLevel hkl)

/-- cancel_order preserves book well-formedness. -/
theorem cancel_order_wf {b : OrderBook} {oid ptk : Nat} {side : OrderSide}
    (hwf : WF b) : WF (b.cancel_order oid ptk side).1 := by
  classical
  obtain ⟨hbid, hask⟩ := hwf
  unfold OrderBook.cancel_order
  dsimp only
  split
  · exact ⟨hbid, hask⟩
  · rename_i level hlook
    split
    · exact ⟨hbid, hask⟩
    · rename_i index hbs
      split
      · exact ⟨hbid, hask⟩
      · rename_i o hget
        split
        · exact ⟨hbid, hask⟩
        · rename_i hoside
          split
          · exact ⟨hbid, hask⟩
          · rename_i hocan
            have hos : o.side = side := by
              by_contra hne
              exact hoside hne
            simp only
            cases hsd : side with
            | Bid =>
              rw [hsd] at hos
              subst hsd
              simp only [OrderBook.getSide] at hlook ⊢
              split
              · simp only [hos, OrderBook.update_side_ticks, OrderBook.putSide,
                  OrderBook.getSide]
                exact ⟨cancel_side_wf_erase hbid, hask⟩
              · simp only [OrderBook.putSide]
                refine ⟨?_, hask⟩
                exact cancel_side_wf_set hbid hlook hget
            | Ask =>
              rw [hsd] at hos
              subst hsd
              simp only [OrderBook.getSide] at hlook ⊢
              split
              · simp only [hos, OrderBook.update_side_ticks, OrderBook.putSide,
                  OrderBook.getSide]
                exact ⟨hbid, cancel_side_wf_erase hask⟩
              · simp only [OrderBook.putSide]
                refine ⟨hbid, ?_⟩
                exact cancel_side_wf_set hask hlook hget

/-- A fresh book is well-formed. -/
theorem new_wf (symbol : String) (tick_multiplier : Nat) :
    WF (OrderBook.new symbol tick_multiplier) := by
  unfold WF OrderBook.new sideWF sideTicksOk idsSorted keysOf
  simp [maxKey?, minKey?]

/-- Every reachable book is well-formed. -/
theorem reachable_wf {b : OrderBook} (h : Reachable b) : WF b := by
  induction h with
  | base symbol tick_multiplier => exact new_wf symbol tick_multiplier
  | add hr hadd ih => exact add_order_wf hadd ih
  | cancel hr ih => exact cancel_order_wf ih

end Matcher

namespace Matcher

/-- On a well-formed book, cancel_order succeeds exactly when the addressed
level holds a not-yet-cancelled order with the requested id. -/
theorem cancel_true_iff_wf {b : OrderBook} (hwf : WF b) (oid ptk : Nat)
    (side : OrderSide) :
    (b.cancel_order oid ptk side).2 = true ↔
      ∃ lvl, lookupLevel (b.getSide side).levels ptk = some lvl ∧
        ∃ o ∈ lvl.orders, o.id = oid ∧ o.is_cancelled = false := by
  have hsideWF : sideWF (b.getSide side) side b.order_id_counter
      (b.getSide side).higher_is_better := by
    cases side with
    | Bid =>
      obtain ⟨h1, -⟩ := hwf
      simpa [OrderBook.getSide, h1.1] using h1
    | Ask =>
      obtain ⟨-, h2⟩ := hwf
      simpa [OrderBook.getSide, h2.1] using h2
  constructor
  · intro htrue
    unfold OrderBook.cancel_order at htrue
    dsimp only at htrue
    split at htrue
    · simp at htrue
    · rename_i level hlook
      split at htrue
      · simp at htrue
      · rename_i index hbs
        split at htrue
        · simp at htrue
        · rename_i o hget
          split at htrue
          · simp at htrue
          · rename_i hoside
            split at htrue
            · simp at htrue
            · rename_i hocan
              obtain ⟨o2, ho2, hid2⟩ :=
                binSearchAux_sound _ level.orders oid 0 level.orders.length
                  index hbs
              rw [hget] at ho2
              simp only [Option.some.injEq] at ho2
              subst ho2
              refine ⟨level, hlook, o, ?_, hid2, by simpa using hocan⟩
              obtain ⟨hlt, hgeto⟩ := List.get?_eq_some.mp hget
              exact hgeto ▸ List.get_mem _ _ _
  · intro ⟨lvl, hlook, o, hmem, hid, hcan⟩
    have hlvlWF := hsideWF.2.2.2 (ptk, lvl) (lookupLevel_mem hlook)
    have hsorted : idsSorted lvl.orders := hlvlWF.1
    have hisSome : (binSearchById lvl.orders oid).isSome = true :=
      (binSearchById_isSome_iff hsorted oid).mpr ⟨o, hmem, hid⟩
    obtain ⟨index, hbs⟩ := Option.isSome_iff_exists.mp hisSome
    obtain ⟨o2, ho2, hid2⟩ :=
      binSearchAux_sound _ lvl.orders oid 0 lvl.orders.length index hbs
    have ho2mem : o2 ∈ lvl.orders := by
      obtain ⟨hlt, hgeto⟩ := List.get?_eq_some.mp ho2
      exact hgeto ▸ List.get_mem _ _ _
    have ho2eq : o2 = o := idsSorted_id_inj hsorted ho2mem hmem (by rw [hid2, hid])
    unfold OrderBook.cancel_order
    dsimp only
    rw [hlook]
    try dsimp only
    rw [hbs]
    try dsimp only
    rw [ho2]
    try dsimp only
    rw [if_neg (by
      simp only [ne_eq, not_not]
      exact (hlvlWF.2 o2 ho2mem).1)]
    rw [if_neg (by
      rw [ho2eq]
      simp [hcan])]
    try rfl

/-- Characterization of a successful cancel on a well-formed book: the level
either disappears (its quantity drained) or keeps its queue with the found
order tombstoned in place. -/
theorem cancel_success_spec {b : OrderBook} {oid ptk : Nat} {side : OrderSide}
    (hwf : WF b) (htrue : (b.cancel_order oid ptk side).2 = true) :
    ∃ level index o, lookupLevel (b.getSide side).levels ptk = some level ∧
      level.orders.get? index = some o ∧ o.id = oid ∧ o.is_cancelled = false ∧
      idsSorted level.orders ∧
      lookupLevel (((b.cancel_order oid ptk side).1.getSide side).levels) ptk =
        (if level.total_quantity - (o.quantity - o.quantity_filled) = 0 then none
         else some ⟨level.orders.set index { o with is_cancelled := true },
                     level.total_quantity - (o.quantity - o.quantity_filled)⟩) := by
  have hsideWF : sideWF (b.getSide side) side b.order_id_counter
      (b.getSide side).higher_is_better := by
    cases side with
    | Bid =>
      obtain ⟨h1, -⟩ := hwf
      simpa [OrderBook.getSide, h1.1] using h1
    | Ask =>
      obtain ⟨-, h2⟩ := hwf
      simpa [OrderBook.getSide, h2.1] using h2
  have hnd : (keysOf (b.getSide side).levels).Nodup := hsideWF.2.2.1
  unfold OrderBook.cancel_order at htrue
  dsimp only at htrue
  split at htrue
  · simp at htrue
  · rename_i level hlook
    split at htrue
    · simp at htrue
    · rename_i index hbs
      split at htrue
      · simp at htrue
      · rename_i o hget
        split at htrue
        · simp at htrue
        · rename_i hoside
          split at htrue
          · simp at htrue
          · rename_i hocan
            obtain ⟨o2, ho2, hid2⟩ :=
              binSearchAux_sound _ level.orders oid 0 level.orders.length
                index hbs
            rw [hget] at ho2
            simp only [Option.some.injEq] at ho2
            subst ho2
            have hlvlWF := hsideWF.2.2.2 (ptk, level) (lookupLevel_mem hlook)
            have hos : o.side = side := by
              by_contra hne
              exact hoside hne
            refine ⟨level, index, o, hlook, hget, hid2, by simpa using hocan,
              hlvlWF.1, ?_⟩
            by_cases hz : level.total_quantity - (o.quantity - o.quantity_filled) = 0
            · rw [if_pos hz]
              have hstep : (b.cancel_order oid ptk side).1.getSide side =
                  updateSideTicks { b.getSide side with
                    levels := eraseLevel (b.getSide side).levels ptk } := by
                unfold OrderBook.cancel_order
                dsimp only
                rw [hlook]
                try dsimp only
                rw [hbs]
                try dsimp only
                rw [hget]
                try dsimp only
                rw [if_neg hoside]
                rw [if_neg (by simpa using hocan)]
                rw [if_pos hz]
                try rw [if_pos hz]
                rw [hos]
                cases side with
                | Bid =>
                  simp [OrderBook.update_side_ticks, OrderBook.putSide,
                    OrderBook.getSide]
                | Ask =>
                  simp [OrderBook.update_side_ticks, OrderBook.putSide,
                    OrderBook.getSide]
              rw [hstep, updateSideTicks_levels]
              exact lookup_eraseLevel_self hnd
            · rw [if_neg hz]
              have hstep : (b.cancel_order oid ptk side).1.getSide side =
                  { b.getSide side with
                    levels := setLevel (b.getSide side).levels ptk
                      ⟨level.orders.set index { o with is_cancelled := true },
                        level.total_quantity - (o.quantity - o.quantity_filled)⟩ } := by
                unfold OrderBook.cancel_order
                dsimp only
                rw [hlook]
                try dsimp only
                rw [hbs]
                try dsimp only
                rw [hget]
                try dsimp only
                rw [if_neg hoside]
                rw [if_neg (by simpa using hocan)]
                rw [if_neg hz]
                try rw [if_neg hz]
                cases side with
                | Bid =>
                  simp [OrderBook.putSide, OrderBook.getSide]
                | Ask =>
                  simp [OrderBook.putSide, OrderBook.getSide]
              rw [hstep]
              exact lookup_setLevel_self hlook

end Matcher

/-- C2: whenever an FOK add_order call returns `(None, [])` — no opposite
liquidity, or the feasibility scan fails — the book's two sides, total_orders
and the trade-id counter are exactly their pre-call values, and only the
order-id counter advanced (by one). -/
theorem c2_fok_reject_leaves_book_unchanged
    (b : Matcher.OrderBook) (uid pt q : Nat) (side : Matcher.OrderSide) (ts : Nat)
    (b' : Matcher.OrderBook)
    (h : b.add_order uid pt q side .FOK ts = some (b', none, [])) :
    b'.ask_side = b.ask_side ∧ b'.bid_side = b.bid_side ∧
    b'.total_orders = b.total_orders ∧ b'.trade_id_counter = b.trade_id_counter ∧
    b'.symbol = b.symbol ∧ b'.tick_multiplier = b.tick_multiplier ∧
    b'.order_id_counter = b.order_id_counter + 1 := by
  classical
  unfold Matcher.OrderBook.add_order at h
  simp only at h
  split at h
  · simp only [Option.some.injEq, Prod.mk.injEq] at h
    obtain ⟨hb, -, -⟩ := h
    subst hb
    simp
  · split at h
    · simp only [Option.some.injEq, Prod.mk.injEq] at h
      obtain ⟨hb, -, -⟩ := h
      subst hb
      simp
    · split at h
      · exact absurd h (by simp)
      · split at h
        · simp at h
        · simp at h

/-- Witness for C2: the FOK Bid 101 × 10 against a book holding only
Ask 101 × 5 is rejected with `(None, [])`, and the resulting book differs
from the pre-call book only in the order-id counter. -/
theorem c2_fok_reject_witness :
    Scenario.c2wBook.add_order 2 101 10 .Bid .FOK 1 =
      some (Scenario.c2wAfter, none, []) ∧
    (Scenario.c2wAfter.ask_side = Scenario.c2wBook.ask_side ∧
     Scenario.c2wAfter.bid_side = Scenario.c2wBook.bid_side ∧
     Scenario.c2wAfter.total_orders = Scenario.c2wBook.total_orders ∧
     Scenario.c2wAfter.trade_id_counter = Scenario.c2wBook.trade_id_counter ∧
     Scenario.c2wAfter.symbol = Scenario.c2wBook.symbol ∧
     Scenario.c2wAfter.tick_multiplier = Scenario.c2wBook.tick_multiplier ∧
     Scenario.c2wAfter.order_id_counter = Scenario.c2wBook.order_id_counter + 1) :=
  ⟨by decide,
   c2_fok_reject_leaves_book_unchanged Scenario.c2wBook 2 101 10 .Bid 1
     Scenario.c2wAfter (by decide)⟩

/-- C6: an IOC add_order call never rests the taker: if the returned option
is Some the taker has no residual (so None is returned whenever a positive
residual remains), every order id present in the book afterwards was present
before, the fresh taker id itself never appears in the book afterwards, and
the returned trades are exactly the ones produced (each consumed one
trade id). -/
theorem c6_ioc_taker_never_rests
    (b : Matcher.OrderBook) (uid pt q : Nat) (side : Matcher.OrderSide) (ts : Nat)
    (b' : Matcher.OrderBook) (res : Option Matcher.Order)
    (trades : List Matcher.Trade)
    (h : b.add_order uid pt q side .IOC ts = some (b', res, trades))
    (hfresh : ∀ i, Matcher.InBook b i → i < b.order_id_counter) :
    (∀ o, res = some o → ¬ o.quantity_filled < o.quantity) ∧
    (∀ i, Matcher.InBook b' i → Matcher.InBook b i) ∧
    ¬ Matcher.InBook b' b.order_id_counter ∧
    b'.trade_id_counter = b.trade_id_counter + trades.length := by
  classical
  unfold Matcher.OrderBook.add_order at h
  simp only at h
  split at h
  · simp only [Option.some.injEq, Prod.mk.injEq] at h
    obtain ⟨h1, h2, h3⟩ := h
    subst h1
    subst h2
    subst h3
    refine ⟨by simp, fun i hi => hi, ?_, by simp⟩
    intro hmem
    exact Nat.lt_irrefl _ (hfresh _ hmem)
  · split at h
    · rename_i hc
      simp at hc
    · split at h
      · exact absurd h (by simp)
      · rename_i b2 order2 trades2 hbest
        have hfacts : (∀ i, Matcher.InBook b2 i → Matcher.InBook b i) ∧
            b2.trade_id_counter = b.trade_id_counter + trades2.length := by
          rcases hb : ({ b with order_id_counter := b.order_id_counter + 1 } :
              Matcher.OrderBook).get_opposite_best_tick side with _ | v
          · rw [hb] at hbest
            exact absurd (And.intro hb (Or.inr trivial)) (by assumption)
          · rw [hb] at hbest
            obtain ⟨hids, hctr, -, -, -⟩ := Matcher.match_order_spec hbest
            exact ⟨hids, hctr⟩
        obtain ⟨hids, hctr⟩ := hfacts
        have hgtc : (Matcher.TimeInForce.IOC = Matcher.TimeInForce.GTC ∧
            order2.quantity_filled < order2.quantity ∧ 0 < pt) = False := by
          simp
        simp only [hgtc, if_false] at h
        split at h
        · simp only [Option.some.injEq, Prod.mk.injEq] at h
          obtain ⟨h1, h2, h3⟩ := h
          subst h1
          subst h2
          subst h3
          refine ⟨by simp, hids, ?_, hctr⟩
          intro hmem
          exact Nat.lt_irrefl _ (hfresh _ (hids _ hmem))
        · simp only [Option.some.injEq, Prod.mk.injEq] at h
          obtain ⟨h1, h2, h3⟩ := h
          subst h1
          subst h2
          subst h3
          rename_i hnores
          refine ⟨?_, hids, ?_, hctr⟩
          · intro o ho
            cases ho
            exact hnores
          · intro hmem
            exact Nat.lt_irrefl _ (hfresh _ (hids _ hmem))

/-- Witness for C6: user 2's IOC Bid 102 × 10 against the book holding only
Ask 101 × 5 (order id 0, counter 1) partially fills and returns
`(None, [5 @ 101])`; the taker id 1 does not appear in the resulting book. -/
theorem c6_ioc_witness :
    Scenario.c2wBook.add_order 2 102 10 .Bid .IOC 1 =
      some (Scenario.c6wBook1, none, Scenario.c6wTrades) ∧
    ((∀ o, (none : Option Matcher.Order) = some o →
        ¬ o.quantity_filled < o.quantity) ∧
     (∀ i, Matcher.InBook Scenario.c6wBook1 i → Matcher.InBook Scenario.c2wBook i) ∧
     ¬ Matcher.InBook Scenario.c6wBook1 Scenario.c2wBook.order_id_counter ∧
     Scenario.c6wBook1.trade_id_counter =
       Scenario.c2wBook.trade_id_counter + Scenario.c6wTrades.length) :=
  ⟨by decide,
   c6_ioc_taker_never_rests Scenario.c2wBook 2 102 10 .Bid 1 Scenario.c6wBook1
     none Scenario.c6wTrades (by decide)
     (Matcher.inBook_lt_of_forall (by decide) (by decide))⟩

/-- C7: in every reachable book, each side's cached best_tick is the extremum
of its level-map keys under that side's polarity (maximum for bids, minimum
for asks), worst_tick is the opposite extremum, and both caches are None
exactly when the side's level map is empty. -/
theorem c7_cached_extrema_invariant
    (b : Matcher.OrderBook) (h : Matcher.Reachable b) :
    b.bid_side.best_tick = Matcher.maxKey? b.bid_side.levels ∧
    b.bid_side.worst_tick = Matcher.minKey? b.bid_side.levels ∧
    b.ask_side.best_tick = Matcher.minKey? b.ask_side.levels ∧
    b.ask_side.worst_tick = Matcher.maxKey? b.ask_side.levels ∧
    ((b.bid_side.best_tick = none ∧ b.bid_side.worst_tick = none) ↔
      b.bid_side.levels = []) ∧
    ((b.ask_side.best_tick = none ∧ b.ask_side.worst_tick = none) ↔
      b.ask_side.levels = []) := by
  obtain ⟨hbid, hask⟩ := Matcher.reachable_wf h
  obtain ⟨hb1, ⟨hb2, hb3⟩, -⟩ := hbid
  obtain ⟨ha1, ⟨ha2, ha3⟩, -⟩ := hask
  rw [hb1] at hb2 hb3
  rw [ha1] at ha2 ha3
  simp only [if_true, if_false, Bool.false_eq_true] at hb2 hb3 ha2 ha3
  refine ⟨hb2, hb3, ha2, ha3, ?_, ?_⟩
  · rw [hb2, hb3]
    constructor
    · rintro ⟨h1, -⟩
      exact Matcher.maxKey?_eq_none_iff.mp h1
    · intro h1
      exact ⟨Matcher.maxKey?_eq_none_iff.mpr h1,
        Matcher.minKey?_eq_none_iff.mpr h1⟩
  · rw [ha2, ha3]
    constructor
    · rintro ⟨h1, -⟩
      exact Matcher.minKey?_eq_none_iff.mp h1
    · intro h1
      exact ⟨Matcher.minKey?_eq_none_iff.mpr h1,
        Matcher.maxKey?_eq_none_iff.mpr h1⟩

/-- C8: on every reachable book, cancel_order returns true exactly when a
not-yet-cancelled order with the requested id rests in the level stored at
(side, price_tick) — absent level, absent id, or an already-cancelled order
all yield false — and in particular a second cancel of the same
(id, price, side) right after a successful one returns false. -/
theorem c8_cancel_success_iff
    (b : Matcher.OrderBook) (h : Matcher.Reachable b) (oid ptk : Nat)
    (side : Matcher.OrderSide) :
    ((b.cancel_order oid ptk side).2 = true ↔
      ∃ lvl, Matcher.lookupLevel (b.getSide side).levels ptk = some lvl ∧
        ∃ o ∈ lvl.orders, o.id = oid ∧ o.is_cancelled = false) ∧
    ((b.cancel_order oid ptk side).2 = true →
      (((b.cancel_order oid ptk side).1).cancel_order oid ptk side).2 = false) := by
  have hwf := Matcher.reachable_wf h
  refine ⟨Matcher.cancel_true_iff_wf hwf oid ptk side, ?_⟩
  intro htrue
  have hwf2 : Matcher.WF (b.cancel_order oid ptk side).1 :=
    Matcher.cancel_order_wf hwf
  obtain ⟨level, index, o, hlook, hget, hid, hcan, hsorted, hlook2⟩ :=
    Matcher.cancel_success_spec hwf htrue
  cases hx : (((b.cancel_order oid ptk side).1).cancel_order oid ptk side).2 with
  | false => rfl
  | true =>
    exfalso
    obtain ⟨lvl2, hlook2b, o3, hmem3, hid3, hcan3⟩ :=
      (Matcher.cancel_true_iff_wf hwf2 oid ptk side).mp hx
    rw [hlook2] at hlook2b
    split at hlook2b
    · exact absurd hlook2b (by simp)
    · rename_i hz
      simp only [Option.some.injEq] at hlook2b
      subst hlook2b
      simp only at hmem3
      obtain ⟨hidx, hgeto⟩ := List.get?_eq_some.mp hget
      obtain ⟨j, hj, hjo3⟩ := List.mem_iff_getElem.mp hmem3
      rw [List.getElem_set] at hjo3
      have hjlen : j < level.orders.length := by
        simpa using hj
      by_cases hji : index = j
      · rw [if_pos hji] at hjo3
        rw [← hjo3] at hcan3
        simp at hcan3
      · rw [if_neg hji] at hjo3
        have hne : (level.orders.get ⟨index, hidx⟩).id ≠
            (level.orders.get ⟨j, hjlen⟩).id := by
          rcases Nat.lt_trichotomy index j with h1 | h1 | h1
          · have := Matcher.idsSorted_get_lt hsorted h1 hjlen
            omega
          · exact absurd h1 hji
          · have := Matcher.idsSorted_get_lt hsorted h1 hidx
            omega
        rw [hgeto] at hne
        have hj_eq : (level.orders.get ⟨j, hjlen⟩) = o3 := by
          simpa using hjo3
        rw [hj_eq] at hne
        rw [hid, hid3] at hne
        exact hne rfl

/-- C10: in every reachable book, each price level's FIFO is strictly
ascending by order id from front to back, so the binary search by id that
cancel_order performs finds an order with a given id exactly when one is
present in the queue. -/
theorem c10_queue_sorted_binary_search
    (b : Matcher.OrderBook) (h : Matcher.Reachable b) (side : Matcher.OrderSide)
    (ptk : Nat) (lvl : Matcher.PriceLevel)
    (hlook : Matcher.lookupLevel (b.getSide side).levels ptk = some lvl) :
    Matcher.idsSorted lvl.orders ∧
    ∀ oid, ((Matcher.binSearchById lvl.orders oid).isSome = true ↔
      ∃ o ∈ lvl.orders, o.id = oid) := by
  have hwf := Matcher.reachable_wf h
  have hsorted : Matcher.idsSorted lvl.orders := by
    cases side with
    | Bid =>
      exact (hwf.1.2.2.2 (ptk, lvl)
        (Matcher.lookupLevel_mem hlook)).1
    | Ask =>
      exact (hwf.2.2.2.2 (ptk, lvl)
        (Matcher.lookupLevel_mem hlook)).1
  exact ⟨hsorted, fun oid => Matcher.binSearchById_isSome_iff hsorted oid⟩

/-- C7 witness: the invariant instantiated at a book reached by two resting
GTC bids followed by a cancel of the best bid. -/
theorem c7_witness :
    Matcher.Reachable Scenario.c7wC ∧
    (Scenario.c7wC.bid_side.best_tick =
        Matcher.maxKey? Scenario.c7wC.bid_side.levels ∧
      Scenario.c7wC.bid_side.worst_tick =
        Matcher.minKey? Scenario.c7wC.bid_side.levels ∧
      Scenario.c7wC.ask_side.best_tick =
        Matcher.minKey? Scenario.c7wC.ask_side.levels ∧
      Scenario.c7wC.ask_side.worst_tick =
        Matcher.maxKey? Scenario.c7wC.ask_side.levels ∧
      ((Scenario.c7wC.bid_side.best_tick = none ∧
          Scenario.c7wC.bid_side.worst_tick = none) ↔
        Scenario.c7wC.bid_side.levels = []) ∧
      ((Scenario.c7wC.ask_side.best_tick = none ∧
          Scenario.c7wC.ask_side.worst_tick = none) ↔
        Scenario.c7wC.ask_side.levels = [])) := by
  have h1 : Matcher.Reachable Scenario.c7wA :=
    Matcher.Reachable.add (Matcher.Reachable.base "BTC-USD" 100)
      (show Scenario.b0.add_order 1 101 10 .Bid .GTC 0 =
        some (Scenario.c7wA, Scenario.c7wAr, Scenario.c7wAt) by decide)
  have h2 : Matcher.Reachable Scenario.c7wB :=
    Matcher.Reachable.add h1
      (show Scenario.c7wA.add_order 2 100 5 .Bid .GTC 1 =
        some (Scenario.c7wB, Scenario.c7wBr, Scenario.c7wBt) by decide)
  have h3 : Matcher.Reachable Scenario.c7wC := Matcher.Reachable.cancel h2
  exact ⟨h3, c7_cached_extrema_invariant Scenario.c7wC h3⟩

/-- C8 witness: on a reachable book holding one live bid (id 0 at tick 101),
cancel success is equivalent to the live-order condition, and an immediate
second cancel of the same key returns false. -/
theorem c8_witness :
    Matcher.Reachable Scenario.c7wA ∧
    (((Scenario.c7wA.cancel_order 0 101 .Bid).2 = true ↔
      ∃ lvl, Matcher.lookupLevel (Scenario.c7wA.getSide .Bid).levels 101 =
          some lvl ∧
        ∃ o ∈ lvl.orders, o.id = 0 ∧ o.is_cancelled = false) ∧
    ((Scenario.c7wA.cancel_order 0 101 .Bid).2 = true →
      (((Scenario.c7wA.cancel_order 0 101 .Bid).1).cancel_order 0 101
        .Bid).2 = false)) := by
  have h1 : Matcher.Reachable Scenario.c7wA :=
    Matcher.Reachable.add (Matcher.Reachable.base "BTC-USD" 100)
      (show Scenario.b0.add_order 1 101 10 .Bid .GTC 0 =
        some (Scenario.c7wA, Scenario.c7wAr, Scenario.c7wAt) by decide)
  exact ⟨h1, c8_cancel_success_iff Scenario.c7wA h1 0 101 .Bid⟩

/-- C10 witness: the level at bid tick 101 of a reachable two-level book has
an id-sorted queue on which the binary search is correct. -/
theorem c10_witness :
    Matcher.Reachable Scenario.c7wB ∧
    Matcher.lookupLevel (Scenario.c7wB.getSide .Bid).levels 101 =
      some Scenario.c10wLvl ∧
    (Matcher.idsSorted Scenario.c10wLvl.orders ∧
      ∀ oid, ((Matcher.binSearchById Scenario.c10wLvl.orders oid).isSome =
          true ↔
        ∃ o ∈ Scenario.c10wLvl.orders, o.id = oid)) := by
  have h1 : Matcher.Reachable Scenario.c7wA :=
    Matcher.Reachable.add (Matcher.Reachable.base "BTC-USD" 100)
      (show Scenario.b0.add_order 1 101 10 .Bid .GTC 0 =
        some (Scenario.c7wA, Scenario.c7wAr, Scenario.c7wAt) by decide)
  have h2 : Matcher.Reachable Scenario.c7wB :=
    Matcher.Reachable.add h1
      (show Scenario.c7wA.add_order 2 100 5 .Bid .GTC 1 =
        some (Scenario.c7wB, Scenario.c7wBr, Scenario.c7wBt) by decide)
  have hlook : Matcher.lookupLevel (Scenario.c7wB.getSide .Bid).levels 101 =
      some Scenario.c10wLvl := by decide
  exact ⟨h2, hlook,
    c10_queue_sorted_binary_search Scenario.c7wB h2 .Bid 101
      Scenario.c10wLvl hlook⟩

/-- C1: in the concrete run where the book holds bids 101 × 5 and 102 × 5
(best_bid = 102) and a limit Ask 101 × 10 arrives, the matching loop emits
trades at prices 101 then 102: it sweeps the crossed bid levels in ascending
price order from the order's own price tick, not in descending order from
best_bid, and the emitted price sequence is increasing rather than
non-increasing. -/
theorem c1_limit_ask_sweeps_ascending :
    Scenario.c1Book.bid_side.best_tick = some 102 ∧
    (Scenario.tradesOf Scenario.c1Run).map Matcher.Trade.price_tick = [101, 102] ∧
    ¬ ((Scenario.tradesOf Scenario.c1Run).map Matcher.Trade.price_tick).Pairwise (· ≥ ·) := by
  decide

section RatSemireducible

set_option allowUnsafeReducibility true
attribute [local semireducible] Rat.add Rat.sub Rat.mul Rat.inv

/-- C3 counterexample: in the S7 scenario (resting Ask 101 × 5, incoming
Bid 102 × 10 IOC from user 2), the book returns no order and one trade
5 @ 101, and the gateway then credits back the full original quantity
(10 × 102 ticks of USD) via credit_funds_back, leaving user 2 at
99999.9495 USD — not the 99999.8985 USD that refunding only the unfilled
residual (5 × 102) via handle_partial_fill_refund would produce. -/
theorem c3_gateway_refunds_full_quantity :
    (Scenario.c3Run.map fun r => (r.order.isNone,
        r.trades.map fun t => (t.quantity, t.price_tick))) = some (true, [(5, 101)]) ∧
    (Scenario.c3Run.map fun r => (r.accounts 2).usd) = some ((199999899 : ℚ)/2000) ∧
    (Scenario.c3ClaimAcc 2).usd = (199999797 : ℚ)/2000 ∧
    (Scenario.c3Run.map fun r => (r.accounts 2).usd) ≠
      some ((Scenario.c3ClaimAcc 2).usd) := by
  refine ⟨by decide, by decide, by decide, by decide⟩

/-- C4 counterexample: a GTC Bid 102 × 10 that partially fills 5 @ 101 and
rests with residual 5 receives a gateway refund of the unfilled 5 ticks at
price 102 via handle_partial_fill_refund: user 2 ends at 99999.8985 USD, not
at the 99999.8475 USD the no-refund policy of the claim predicts, so the
resting residual is no longer collateralized. -/
theorem c4_gateway_refunds_resting_residual :
    (Scenario.c4Run.map fun r => r.order.map fun o => (o.quantity, o.quantity_filled))
      = some (some (10, 5)) ∧
    (Scenario.c4Run.map fun r => (r.accounts 2).usd) = some ((199999797 : ℚ)/2000) ∧
    (Scenario.c4Settled 2).usd = (199999695 : ℚ)/2000 ∧
    (Scenario.c4Run.map fun r => (r.accounts 2).usd) ≠
      some ((Scenario.c4Settled 2).usd) := by
  refine ⟨by decide, by decide, by decide, by decide⟩

/-- C5: cancelling through the gateway the unmatched GTC Bid 100 × 10 that
rests alone at its price level succeeds in the book but issues no refund —
cancel_order removes the emptied level, the subsequent get_order_by_id finds
nothing, and credit_funds_back is never called — so user 7's USD stays at
99999.9 instead of returning to the pre-placement 100000. -/
theorem c5_cancel_only_order_skips_refund :
    Scenario.c5Run.success = true ∧
    (Scenario.c5Placed.map fun r => (r.accounts 7).usd) = some ((999999 : ℚ)/10) ∧
    (Scenario.c5Run.accounts 7).usd = (999999 : ℚ)/10 ∧
    (Scenario.c5Run.accounts 7).usd ≠ (Scenario.acc0 7).usd := by
  refine ⟨by decide, by decide, by decide, by decide⟩


/-- C3 amended: whenever the book call inside the gateway add_order flow
returns maybe_order = None (with or without trades — including the IOC
partial fill), the gateway refunds the FULL original quantity priced at
price_tick through credit_funds_back on top of the settled store, not the
unfilled residual through handle_partial_fill_refund. Stated for Bid orders,
whose credit_funds_back branch is symbol-independent. -/
theorem c3_amended_none_refunds_full_quantity
    (book : Matcher.OrderBook) (acc : Gateway.Accounts) (symbol : String)
    (uid pt q : Nat) (tif : Matcher.TimeInForce) (ts : Nat)
    (hq : q ≠ 0) (acc1 : Gateway.Accounts)
    (hdebit : Gateway.debit_funds_for_order acc uid symbol .Bid q pt
        book.tick_multiplier = Except.ok acc1)
    (b1 : Matcher.OrderBook) (trades : List Matcher.Trade)
    (hadd : book.add_order uid pt q .Bid tif ts = some (b1, none, trades)) :
    Gateway.gateway_add_order book acc symbol uid pt q .Bid tif ts =
      some ⟨b1,
        Gateway.updAcct (Gateway.settleAll symbol book.tick_multiplier trades acc1) uid
          { Gateway.settleAll symbol book.tick_multiplier trades acc1 uid with
              usd := (Gateway.settleAll symbol book.tick_multiplier trades acc1 uid).usd +
                (q : ℚ) / (book.tick_multiplier : ℚ) *
                  ((pt : ℚ) / (book.tick_multiplier : ℚ)) },
        none, trades, false⟩ := by
  unfold Gateway.gateway_add_order
  rw [if_neg hq]
  dsimp only
  rw [hdebit, hadd]
  simp [Gateway.credit_funds_back]

/-- Witness for the amended C3 at the S7 inputs: user 2's IOC Bid 102 × 10
against the book holding Ask 101 × 5. -/
theorem c3_amended_witness :
    (10 : Nat) ≠ 0 ∧
    Gateway.debit_funds_for_order Scenario.c3AccA 2 "BTC-USD" .Bid 10 102
      Scenario.c3BookA.tick_multiplier = Except.ok Scenario.c3AccDebited ∧
    Scenario.c3BookA.add_order 2 102 10 .Bid .IOC 1 =
      some (Scenario.c3Book1, none, Scenario.c3Trades) ∧
    Gateway.gateway_add_order Scenario.c3BookA Scenario.c3AccA "BTC-USD" 2 102 10
        .Bid .IOC 1 =
      some ⟨Scenario.c3Book1,
        Gateway.updAcct
          (Gateway.settleAll "BTC-USD" Scenario.c3BookA.tick_multiplier
            Scenario.c3Trades Scenario.c3AccDebited) 2
          { Gateway.settleAll "BTC-USD" Scenario.c3BookA.tick_multiplier
              Scenario.c3Trades Scenario.c3AccDebited 2 with
              usd := (Gateway.settleAll "BTC-USD" Scenario.c3BookA.tick_multiplier
                Scenario.c3Trades Scenario.c3AccDebited 2).usd +
                (10 : ℚ) / (Scenario.c3BookA.tick_multiplier : ℚ) *
                  ((102 : ℚ) / (Scenario.c3BookA.tick_multiplier : ℚ)) },
        none, Scenario.c3Trades, false⟩ :=
  ⟨by decide, by rfl, by rfl,
   c3_amended_none_refunds_full_quantity Scenario.c3BookA Scenario.c3AccA "BTC-USD"
     2 102 10 .IOC 1 (by decide) Scenario.c3AccDebited (by rfl)
     Scenario.c3Book1 Scenario.c3Trades (by rfl)⟩

/-- C4 amended: when the gateway's book call accepts a Bid that rests with a
partial fill (0 < quantity_filled < quantity), the gateway refunds the
unfilled residual priced at price_tick through handle_partial_fill_refund on
top of the settled store — the resting residual does not stay collateralized. -/
theorem c4_amended_partial_rest_refunds_residual
    (book : Matcher.OrderBook) (acc : Gateway.Accounts) (symbol : String)
    (uid pt q : Nat) (tif : Matcher.TimeInForce) (ts : Nat)
    (hq : q ≠ 0) (acc1 : Gateway.Accounts)
    (hdebit : Gateway.debit_funds_for_order acc uid symbol .Bid q pt
        book.tick_multiplier = Except.ok acc1)
    (b1 : Matcher.OrderBook) (o : Matcher.Order) (trades : List Matcher.Trade)
    (hadd : book.add_order uid pt q .Bid tif ts = some (b1, some o, trades))
    (hfill : 0 < o.quantity_filled) (hresid : o.quantity_filled < o.quantity) :
    Gateway.gateway_add_order book acc symbol uid pt q .Bid tif ts =
      some ⟨b1,
        Gateway.updAcct (Gateway.settleAll symbol book.tick_multiplier trades acc1) uid
          { Gateway.settleAll symbol book.tick_multiplier trades acc1 uid with
              usd := (Gateway.settleAll symbol book.tick_multiplier trades acc1 uid).usd +
                ((o.quantity - o.quantity_filled : Nat) : ℚ) / (book.tick_multiplier : ℚ) *
                  ((pt : ℚ) / (book.tick_multiplier : ℚ)) },
        some o, trades, true⟩ := by
  unfold Gateway.gateway_add_order
  rw [if_neg hq]
  dsimp only
  rw [hdebit, hadd]
  simp only [Option.isSome_some]
  rw [if_pos (by omega : 0 < o.quantity - o.quantity_filled ∧ 0 < o.quantity_filled)]
  simp [Gateway.handle_partial_fill_refund]

/-- Witness for the amended C4 at the concrete inputs: user 2's GTC
Bid 102 × 10 against the book holding Ask 101 × 5, resting with 5 filled. -/
theorem c4_amended_witness :
    (10 : Nat) ≠ 0 ∧
    Scenario.c3BookA.add_order 2 102 10 .Bid .GTC 1 =
      some (Scenario.c4Book1, some Scenario.c4Order, Scenario.c4Trades) ∧
    0 < Scenario.c4Order.quantity_filled ∧
    Scenario.c4Order.quantity_filled < Scenario.c4Order.quantity ∧
    Gateway.gateway_add_order Scenario.c3BookA Scenario.c3AccA "BTC-USD" 2 102 10
        .Bid .GTC 1 =
      some ⟨Scenario.c4Book1,
        Gateway.updAcct
          (Gateway.settleAll "BTC-USD" Scenario.c3BookA.tick_multiplier
            Scenario.c4Trades Scenario.c3AccDebited) 2
          { Gateway.settleAll "BTC-USD" Scenario.c3BookA.tick_multiplier
              Scenario.c4Trades Scenario.c3AccDebited 2 with
              usd := (Gateway.settleAll "BTC-USD" Scenario.c3BookA.tick_multiplier
                Scenario.c4Trades Scenario.c3AccDebited 2).usd +
                ((Scenario.c4Order.quantity - Scenario.c4Order.quantity_filled : Nat) : ℚ) /
                    (Scenario.c3BookA.tick_multiplier : ℚ) *
                  ((102 : ℚ) / (Scenario.c3BookA.tick_multiplier : ℚ)) },
        some Scenario.c4Order, Scenario.c4Trades, true⟩ :=
  ⟨by decide, by rfl, by decide, by decide,
   c4_amended_partial_rest_refunds_residual Scenario.c3BookA Scenario.c3AccA "BTC-USD"
     2 102 10 .GTC 1 (by decide) Scenario.c3AccDebited (by rfl)
     Scenario.c4Book1 Scenario.c4Order Scenario.c4Trades (by rfl)
     (by decide) (by decide)⟩

/-- C9: settle_trade's self-trade branch (taker_user_id = maker_user_id)
credits the single user both legs of the wash — base asset
+ quantity / tick_multiplier and USD + (quantity / M) · (price_tick / M) —
for both supported symbols, without ever inspecting the taker's side; and in
the concrete S6 scenario (same user places Ask 100 × 5 GTC then
Bid 100 × 5 GTC) the user's final balances equal the pre-order seeds. -/
theorem c9_self_trade_credits_both_legs :
    (∀ (trade : Matcher.Trade) (acc : Gateway.Accounts) (M : Nat),
      trade.taker_user_id = trade.maker_user_id →
      Gateway.settle_trade trade "BTC-USD" acc trade.taker_user_id
          trade.maker_user_id M =
        Except.ok (Gateway.updAcct acc trade.taker_user_id
          { acc trade.taker_user_id with
              btc := (acc trade.taker_user_id).btc + (trade.quantity : ℚ) / (M : ℚ),
              usd := (acc trade.taker_user_id).usd +
                (trade.quantity : ℚ) / (M : ℚ) * ((trade.price_tick : ℚ) / (M : ℚ)) }) ∧
      Gateway.settle_trade trade "SOL-USD" acc trade.taker_user_id
          trade.maker_user_id M =
        Except.ok (Gateway.updAcct acc trade.taker_user_id
          { acc trade.taker_user_id with
              sol := (acc trade.taker_user_id).sol + (trade.quantity : ℚ) / (M : ℚ),
              usd := (acc trade.taker_user_id).usd +
                (trade.quantity : ℚ) / (M : ℚ) * ((trade.price_tick : ℚ) / (M : ℚ)) })) ∧
    (Scenario.c9Run.map fun r =>
      (r.trades.map fun t => (t.quantity, t.price_tick),
        (r.accounts 7).btc, (r.accounts 7).sol, (r.accounts 7).usd)) =
      some ([(5, 100)], 100, 10000, 100000) := by
  constructor
  · intro trade acc M h
    constructor
    · simp [Gateway.settle_trade, h]
    · simp [Gateway.settle_trade, h]
  · decide

/-- Witness for C9: the general part applied to a concrete self-trade of
user 9 (5 ticks at price tick 100, M = 100) on the seed accounts. -/
theorem c9_self_trade_witness :
    c9wTrade.taker_user_id = c9wTrade.maker_user_id ∧
    Gateway.settle_trade c9wTrade "BTC-USD" Scenario.acc0 c9wTrade.taker_user_id
        c9wTrade.maker_user_id 100 =
      Except.ok (Gateway.updAcct Scenario.acc0 c9wTrade.taker_user_id
        { Scenario.acc0 c9wTrade.taker_user_id with
            btc := (Scenario.acc0 c9wTrade.taker_user_id).btc + (c9wTrade.quantity : ℚ) / (100 : ℚ),
            usd := (Scenario.acc0 c9wTrade.taker_user_id).usd +
              (c9wTrade.quantity : ℚ) / (100 : ℚ) * ((c9wTrade.price_tick : ℚ) / (100 : ℚ)) }) :=
  ⟨rfl, (c9_self_trade_credits_both_legs.1 c9wTrade Scenario.acc0 100 rfl).1⟩

end RatSemireducible
